import Mathlib

/-!
Verification development for the plasma log-structured store.

The definitions below are a shallow embedding of two source files:
`plasma/lss.go` (flush buffers and the log-structured store front end) and
`plasma/plasma.go` (recovery, SMO triage, page removal, stats).  Go's
sequential semantics is modelled directly; an atomic compare-and-swap whose
expected value was just loaded always succeeds in the sequential embedding,
so the `goto retry` loops of the source collapse to straight-line code.
Go machine integers are modelled as `Nat`; where Go truncates (the
`uint32` cast in `PutUint32`) the truncation is explicit.
-/

namespace Plasma

/-- Size of the 4-byte big-endian length header each payload carries
inside a flush buffer (`headerFBSize` in lss.go). -/
def headerFBSize : Nat := 4

/-- State-word layout, from lss.go:
`[32 bit offset][14 bit void][16 bit nwriters][1 bit reset][1 bit full]`.
`decodeState` returns `(isfull, reset, nwriters, offset)`. -/
def decodeState (state : Nat) : Bool × Bool × Nat × Nat :=
  (state &&& 0x1 == 0x1, state &&& 0x2 == 0x2,
   (state >>> 2) &&& 0xffff, state >>> 32)

/-- Packs the full bit, writer count and offset into a state word
(`encodeState` in lss.go).  The reset bit is never set by `encodeState`
in the source; it is only introduced by `resetState`. -/
def encodeState (isfull : Bool) (nwriters offset : Nat) : Nat :=
  (if isfull then 1 else 0) ||| (nwriters <<< 2) ||| (offset <<< 32)

/-- Sets the reset bit (`resetState` in lss.go). -/
def resetState (state : Nat) : Nat := state ||| 0x2

/-- Tests the reset bit (`isResetState` in lss.go). -/
def isResetState (state : Nat) : Bool := state &&& 0x2 > 0

theorem lor_shiftLeft_eq_add {a : Nat} (b k : Nat) (h : a < 2 ^ k) :
    a ||| (b <<< k) = 2 ^ k * b + a := by
  apply Nat.eq_of_testBit_eq
  intro i
  rw [Nat.testBit_mul_pow_two_add b h i, Nat.testBit_or, Nat.testBit_shiftLeft]
  by_cases hik : i < k
  · simp [hik, Nat.not_le.mpr hik]
  · have ha : a.testBit i = false :=
      Nat.testBit_lt_two_pow (lt_of_lt_of_le h (Nat.pow_le_pow_right (by omega)
        (Nat.le_of_not_lt hik)))
    simp [hik, Nat.le_of_not_lt hik, ha]

theorem encodeState_eq (isfull : Bool) (nw off : Nat) (hnw : nw < 2 ^ 16) :
    encodeState isfull nw off =
      off * 2 ^ 32 + nw * 4 + (if isfull then 1 else 0) := by
  unfold encodeState
  have h1 : (if isfull then 1 else 0 : Nat) ||| (nw <<< 2) =
      2 ^ 2 * nw + (if isfull then 1 else 0) := by
    apply lor_shiftLeft_eq_add
    cases isfull <;> simp
  rw [h1]
  have h2 : 2 ^ 2 * nw + (if isfull then 1 else 0) < 2 ^ 32 := by
    cases isfull <;> simp <;> omega
  rw [lor_shiftLeft_eq_add off 32 h2]
  cases isfull <;> simp <;> ring

theorem and_two_eq (x : Nat) : x &&& 2 = x % 4 &&& 2 := by
  have h : x % 4 = x &&& 3 := by
    have h3 : (3 : Nat) = 2 ^ 2 - 1 := by norm_num
    rw [h3, Nat.and_pow_two_sub_one_eq_mod]
  have h32 : (3 : Nat) &&& 2 = 2 := by decide
  rw [h, Nat.and_assoc, h32]

/-- Decoding inverts encoding on in-range fields; the reset bit of an
encoded word is clear. -/
theorem decode_encode (isfull : Bool) (nw off : Nat)
    (hnw : nw < 2 ^ 16) (_hoff : off < 2 ^ 32) :
    decodeState (encodeState isfull nw off) = (isfull, false, nw, off) := by
  rw [encodeState_eq isfull nw off hnw]
  unfold decodeState
  have hb : (if isfull then 1 else 0 : Nat) < 2 := by cases isfull <;> simp
  set b := (if isfull then 1 else 0 : Nat) with hbdef
  have e1 : (off * 2 ^ 32 + nw * 4 + b) &&& 1 = b := by
    rw [Nat.and_one_is_mod]; omega
  have e2 : (off * 2 ^ 32 + nw * 4 + b) &&& 2 = 0 := by
    rw [and_two_eq]
    have : (off * 2 ^ 32 + nw * 4 + b) % 4 = b := by omega
    rw [this]
    interval_cases b <;> rfl
  have e3 : ((off * 2 ^ 32 + nw * 4 + b) >>> 2) &&& 0xffff = nw := by
    have h16 : (0xffff : Nat) = 2 ^ 16 - 1 := by norm_num
    rw [h16, Nat.and_pow_two_sub_one_eq_mod, Nat.shiftRight_eq_div_pow]
    show (off * 2 ^ 32 + nw * 4 + b) / 2 ^ 2 % 2 ^ 16 = nw
    omega
  have e4 : (off * 2 ^ 32 + nw * 4 + b) >>> 32 = off := by
    rw [Nat.shiftRight_eq_div_pow]
    omega
  rw [e1, e2, e3, e4]
  cases isfull <;> simp [hbdef]

/-- Writes `uint32(v)` big-endian at positions `off .. off+3`
(`binary.BigEndian.PutUint32` on the slice `fb.b[off : off+4]`).
Each stored byte is reduced mod 256, matching Go's byte truncation. -/
def putUint32BE (b : List Nat) (off v : Nat) : List Nat :=
  ((((b.set off (v / 2 ^ 24 % 256)).set (off + 1) (v / 2 ^ 16 % 256)).set
      (off + 2) (v / 2 ^ 8 % 256)).set (off + 3) (v % 256))

/-- Reads a big-endian uint32 at positions `off .. off+3`
(`binary.BigEndian.Uint32`). -/
def readUint32BE (b : List Nat) (off : Nat) : Nat :=
  b.getD off 0 * 2 ^ 24 + b.getD (off + 1) 0 * 2 ^ 16 +
    b.getD (off + 2) 0 * 2 ^ 8 + b.getD (off + 3) 0

/-- A flush buffer: the base log offset, the 64-bit state word and the
byte slab (`flushBuffer` in lss.go).  The `next`, `callb`, `seqno`,
`doCommit` and `trimOffset` fields are not needed by the claims below;
the flush callback is modelled as the fired-flag returned by `Done`. -/
structure FlushBuffer where
  baseOffset : Nat
  state : Nat
  b : List Nat
deriving DecidableEq

/-- End offset of the data accepted so far (`EndOffset` in lss.go). -/
def FlushBuffer.EndOffset (fb : FlushBuffer) : Nat :=
  fb.baseOffset + (decodeState fb.state).2.2.2

/-- Decrements the writer count; the returned flag is true exactly when
the source would invoke the flush callback (`nw == 1 && isfull`).
Source: `flushBuffer.Done` in lss.go.  Go's `nw-1` underflows a signed
int at `nw = 0`; the embedding uses truncated subtraction, and every
theorem about `Done` assumes `nw ≥ 1`. -/
def FlushBuffer.Done (fb : FlushBuffer) : FlushBuffer × Bool :=
  match decodeState fb.state with
  | (isfull, _, nw, offset) =>
    ({ fb with state := encodeState isfull (nw - 1) offset },
     nw == 1 && isfull)

/-- Marks the buffer full if `offset ≥ thr` and it is not already
full or reset; returns `(markedFull, lssOff)` plus the new buffer
(`flushBuffer.TryClose` in lss.go). -/
def FlushBuffer.TryClose (fb : FlushBuffer) (thr : Nat) :
    Bool × Nat × FlushBuffer :=
  match decodeState fb.state with
  | (isfull, reset, nw, offset) =>
    if offset < thr then (false, 0, fb)
    else if !isfull && !reset then
      ({ fb with state := encodeState true nw offset }.EndOffset,
       { fb with state := encodeState true nw offset }) |>
        fun p => (true, p.1, p.2)
    else (false, 0, fb)

/-- Serves a positional read from an unflushed buffer
(`flushBuffer.Read` in lss.go): bump the writer count, check the range,
decode the 4-byte header, copy the payload, then `Done`.  The result is
`(some (length, payload))` on success and `none` for `errFBReadFailed`;
the last component records whether the inner `Done` fired the callback. -/
def FlushBuffer.Read (fb : FlushBuffer) (off : Nat) :
    Option (Nat × List Nat) × FlushBuffer × Bool :=
  match decodeState fb.state with
  | (isfull, reset, nw, offset) =>
    if nw > 0 && !reset then
      let fb1 : FlushBuffer := { fb with state := encodeState isfull (nw + 1) offset }
      let start := fb1.baseOffset
      if start ≤ off ∧ off < start + offset then
        let payloadOffset := off - start
        let dataOffset := payloadOffset + headerFBSize
        let l := readUint32BE fb1.b payloadOffset
        let payload := (fb1.b.drop dataOffset).take l
        let d := fb1.Done
        (some (l, payload), d.1, d.2)
      else
        let d := fb1.Done
        (none, d.1, d.2)
    else (none, fb, false)

/-- Result of `flushBuffer.Alloc`: the status pair, the per-chunk log
offsets, the per-chunk writable slices (modelled as `(start, length)`
ranges into the slab) and the updated buffer. -/
structure AllocResult where
  status : Bool
  markedFull : Bool
  offs : List Nat
  bufs : List (Nat × Nat)
  fb : FlushBuffer
deriving DecidableEq

/-- The loop body of `Alloc`: starting at in-buffer position `bufOffset`,
write each chunk's 4-byte big-endian length header and record the chunk
positions.  Returns the written slab, the in-buffer chunk offsets and the
`(start, length)` ranges of the writable slices. -/
def allocWrite (b : List Nat) (bufOffset : Nat) :
    List Nat → List Nat × List Nat × List (Nat × Nat)
  | [] => (b, [], [])
  | sz :: rest =>
    let b1 := putUint32BE b bufOffset sz
    let r := allocWrite b1 (bufOffset + sz + headerFBSize) rest
    (r.1, bufOffset :: r.2.1, (bufOffset + headerFBSize, sz) :: r.2.2)

/-- Total reservation size `Σ (size + headerFBSize)` computed by the
`for` loop in `Alloc`. -/
def sizesTotal (sizes : List Nat) : Nat :=
  sizes.foldl (fun a sz => a + sz + headerFBSize) 0

/-- Reserves space for the chunks of `sizes` (`flushBuffer.Alloc` in
lss.go).  Fails with `markedFull = false` when the buffer is full or
reset; marks the buffer full and fails when the reservation overflows
the slab; otherwise advances the offset, bumps the writer count, writes
the chunk headers and returns offsets and slices. -/
def FlushBuffer.Alloc (fb : FlushBuffer) (sizes : List Nat) : AllocResult :=
  match decodeState fb.state with
  | (isfull, reset, nw, offset) =>
    if isfull || reset then ⟨false, false, [], [], fb⟩
    else
      let size := sizesTotal sizes
      let newOffset := offset + size
      if newOffset > fb.b.length then
        ⟨false, true, [], [], { fb with state := encodeState true nw offset }⟩
      else
        let w := allocWrite fb.b offset sizes
        ⟨true, false, w.2.1.map (fun r => fb.baseOffset + r), w.2.2,
          { fb with state := encodeState false (nw + 1) newOffset, b := w.1 }⟩

/-- Marks the buffer for re-initialization (`flushBuffer.Reset` in
lss.go): clears `baseOffset` and sets the reset bit. -/
def FlushBuffer.ResetBuf (fb : FlushBuffer) : FlushBuffer :=
  { fb with baseOffset := 0, state := resetState fb.state }

theorem getD_set_ne {l : List Nat} {i j : Nat} (h : i ≠ j) (a d : Nat) :
    (l.set i a).getD j d = l.getD j d := by
  simp [List.getD_eq_getElem?_getD, List.getElem?_set_ne h]

theorem getD_set_self {l : List Nat} {i : Nat} (h : i < l.length) (a d : Nat) :
    (l.set i a).getD i d = a := by
  simp [List.getD_eq_getElem?_getD, List.getElem?_set_self h]

@[simp] theorem putUint32BE_length (b : List Nat) (off v : Nat) :
    (putUint32BE b off v).length = b.length := by
  simp [putUint32BE]

theorem putUint32BE_getD_outside (b : List Nat) (off v j : Nat)
    (h : j < off ∨ off + 4 ≤ j) (d : Nat) :
    (putUint32BE b off v).getD j d = b.getD j d := by
  unfold putUint32BE
  rw [getD_set_ne (by omega), getD_set_ne (by omega), getD_set_ne (by omega),
    getD_set_ne (by omega)]

theorem readUint32BE_putUint32BE (b : List Nat) (off v : Nat)
    (h : off + 4 ≤ b.length) :
    readUint32BE (putUint32BE b off v) off = v % 2 ^ 32 := by
  have h0 : (putUint32BE b off v).getD off 0 = v / 2 ^ 24 % 256 := by
    unfold putUint32BE
    rw [getD_set_ne (by omega), getD_set_ne (by omega), getD_set_ne (by omega),
      getD_set_self (by omega)]
  have h1 : (putUint32BE b off v).getD (off + 1) 0 = v / 2 ^ 16 % 256 := by
    unfold putUint32BE
    rw [getD_set_ne (by omega), getD_set_ne (by omega),
      getD_set_self (by simp; omega)]
  have h2 : (putUint32BE b off v).getD (off + 2) 0 = v / 2 ^ 8 % 256 := by
    unfold putUint32BE
    rw [getD_set_ne (by omega), getD_set_self (by simp; omega)]
  have h3 : (putUint32BE b off v).getD (off + 3) 0 = v % 256 := by
    unfold putUint32BE
    rw [getD_set_self (by simp; omega)]
  unfold readUint32BE
  rw [h0, h1, h2, h3]
  omega

theorem sizesTotal_cons (sz : Nat) (rest : List Nat) :
    sizesTotal (sz :: rest) = sz + headerFBSize + sizesTotal rest := by
  have key : ∀ (l : List Nat) (a : Nat),
      l.foldl (fun a sz => a + sz + headerFBSize) a =
        a + l.foldl (fun a sz => a + sz + headerFBSize) 0 := by
    intro l
    induction l with
    | nil => intro a; simp
    | cons x xs ih =>
      intro a
      simp only [List.foldl_cons]
      rw [ih (a + x + headerFBSize), ih (0 + x + headerFBSize)]
      omega
  unfold sizesTotal
  simp only [List.foldl_cons]
  rw [key rest (0 + sz + headerFBSize)]
  omega

/-- The in-buffer start positions of the chunks of a reservation that
begins at position `p`: each chunk is laid out right after the previous
chunk's header and payload. -/
def chunkPositions (p : Nat) : List Nat → List Nat
  | [] => []
  | sz :: rest => p :: chunkPositions (p + sz + headerFBSize) rest

theorem allocWrite_length (b : List Nat) (p : Nat) (sizes : List Nat) :
    (allocWrite b p sizes).1.length = b.length := by
  induction sizes generalizing b p with
  | nil => rfl
  | cons sz rest ih => simp [allocWrite, ih]

theorem allocWrite_offs (b : List Nat) (p : Nat) (sizes : List Nat) :
    (allocWrite b p sizes).2.1 = chunkPositions p sizes := by
  induction sizes generalizing b p with
  | nil => rfl
  | cons sz rest ih => simp [allocWrite, chunkPositions, ih]

theorem allocWrite_bufs (b : List Nat) (p : Nat) (sizes : List Nat) :
    (allocWrite b p sizes).2.2 =
      List.zipWith (fun pos sz => (pos + headerFBSize, sz))
        (chunkPositions p sizes) sizes := by
  induction sizes generalizing b p with
  | nil => rfl
  | cons sz rest ih => simp [allocWrite, chunkPositions, ih]

theorem allocWrite_getD_lt (b : List Nat) (p : Nat) (sizes : List Nat)
    (j : Nat) (h : j < p) (d : Nat) :
    (allocWrite b p sizes).1.getD j d = b.getD j d := by
  induction sizes generalizing b p with
  | nil => rfl
  | cons sz rest ih =>
    show ((allocWrite (putUint32BE b p sz) (p + sz + headerFBSize) rest).1).getD j d
      = b.getD j d
    rw [ih (putUint32BE b p sz) (p + sz + headerFBSize) (by omega),
      putUint32BE_getD_outside b p sz j (by omega)]

theorem allocWrite_headers (b : List Nat) (p : Nat) (sizes : List Nat)
    (hlen : p + sizesTotal sizes ≤ b.length) :
    ∀ i, i < sizes.length →
      readUint32BE (allocWrite b p sizes).1 ((chunkPositions p sizes).getD i 0) =
        sizes.getD i 0 % 2 ^ 32 := by
  induction sizes generalizing b p with
  | nil => intro i hi; simp at hi
  | cons sz rest ih =>
    intro i hi
    have htot := sizesTotal_cons sz rest
    match i with
    | 0 =>
      show readUint32BE (allocWrite (putUint32BE b p sz) (p + sz + headerFBSize) rest).1 p
        = sz % 2 ^ 32
      have hread : ∀ j, j < p + sz + headerFBSize → ∀ d,
          (allocWrite (putUint32BE b p sz) (p + sz + headerFBSize) rest).1.getD j d =
            (putUint32BE b p sz).getD j d := fun j hj d =>
        allocWrite_getD_lt (putUint32BE b p sz) (p + sz + headerFBSize) rest j hj d
      unfold readUint32BE
      rw [hread p (by simp [headerFBSize]; omega), hread (p + 1) (by simp [headerFBSize]; omega),
        hread (p + 2) (by simp [headerFBSize]; omega), hread (p + 3) (by simp [headerFBSize]; omega)]
      have := readUint32BE_putUint32BE b p sz (by simp [headerFBSize] at htot ⊢; omega)
      unfold readUint32BE at this
      exact this
    | i + 1 =>
      show readUint32BE (allocWrite (putUint32BE b p sz) (p + sz + headerFBSize) rest).1
          ((chunkPositions (p + sz + headerFBSize) rest).getD i 0) = rest.getD i 0 % 2 ^ 32
      exact ih (putUint32BE b p sz) (p + sz + headerFBSize)
        (by simp [headerFBSize] at htot ⊢; omega) i (by simpa using hi)

theorem Done_spec (fb : FlushBuffer) (f : Bool) (nw off : Nat)
    (h : fb.state = encodeState f nw off) (hnw : nw < 2 ^ 16)
    (hoff : off < 2 ^ 32) :
    fb.Done = ({ fb with state := encodeState f (nw - 1) off },
      nw == 1 && f) := by
  unfold FlushBuffer.Done
  rw [h, decode_encode f nw off hnw hoff]

theorem TryClose_spec_lt (fb : FlushBuffer) (f : Bool) (nw off thr : Nat)
    (h : fb.state = encodeState f nw off) (hnw : nw < 2 ^ 16)
    (hoff : off < 2 ^ 32) (hthr : off < thr) :
    fb.TryClose thr = (false, 0, fb) := by
  unfold FlushBuffer.TryClose
  rw [h, decode_encode f nw off hnw hoff]
  simp [hthr]

theorem TryClose_spec_close (fb : FlushBuffer) (nw off thr : Nat)
    (h : fb.state = encodeState false nw off) (hnw : nw < 2 ^ 16)
    (hoff : off < 2 ^ 32) (hthr : ¬ off < thr) :
    fb.TryClose thr = (true, fb.baseOffset + off,
      { fb with state := encodeState true nw off }) := by
  unfold FlushBuffer.TryClose
  rw [h, decode_encode false nw off hnw hoff]
  simp only [hthr, if_false, Bool.not_false, Bool.and_self, if_true]
  unfold FlushBuffer.EndOffset
  simp [decode_encode true nw off hnw hoff]

theorem TryClose_spec_full (fb : FlushBuffer) (nw off thr : Nat)
    (h : fb.state = encodeState true nw off) (hnw : nw < 2 ^ 16)
    (hoff : off < 2 ^ 32) (hthr : ¬ off < thr) :
    fb.TryClose thr = (false, 0, fb) := by
  unfold FlushBuffer.TryClose
  rw [h, decode_encode true nw off hnw hoff]
  simp [hthr]

theorem Read_spec_nw0 (fb : FlushBuffer) (f : Bool) (off rdOff : Nat)
    (h : fb.state = encodeState f 0 off) (hoff : off < 2 ^ 32) :
    fb.Read rdOff = (none, fb, false) := by
  unfold FlushBuffer.Read
  rw [h, decode_encode f 0 off (by norm_num) hoff]
  simp

theorem Read_spec_ok (fb : FlushBuffer) (f : Bool) (nw off rdOff : Nat)
    (h : fb.state = encodeState f nw off) (hnw : 1 ≤ nw) (hnw2 : nw + 1 < 2 ^ 16)
    (hoff : off < 2 ^ 32)
    (hin : fb.baseOffset ≤ rdOff ∧ rdOff < fb.baseOffset + off) :
    fb.Read rdOff =
      (some (readUint32BE fb.b (rdOff - fb.baseOffset),
        (fb.b.drop (rdOff - fb.baseOffset + headerFBSize)).take
          (readUint32BE fb.b (rdOff - fb.baseOffset))), fb, false) := by
  unfold FlushBuffer.Read
  have hd := decode_encode f nw off (by omega) hoff
  rw [h]
  simp only [hd]
  rw [if_pos (by simp; omega)]
  rw [if_pos hin]
  rw [Done_spec _ f (nw + 1) off rfl hnw2 hoff]
  have hfb : ({ fb with state := encodeState f nw off } : FlushBuffer) = fb := by
    rw [← h]
  simp only [Nat.add_sub_cancel, hfb]
  have heq : (nw + 1 == 1) = false := by
    simp; omega
  simp [heq]

theorem Read_spec_out (fb : FlushBuffer) (f : Bool) (nw off rdOff : Nat)
    (h : fb.state = encodeState f nw off) (hnw : 1 ≤ nw) (hnw2 : nw + 1 < 2 ^ 16)
    (hoff : off < 2 ^ 32)
    (hout : ¬ (fb.baseOffset ≤ rdOff ∧ rdOff < fb.baseOffset + off)) :
    fb.Read rdOff = (none, fb, false) := by
  unfold FlushBuffer.Read
  have hd := decode_encode f nw off (by omega) hoff
  rw [h]
  simp only [hd]
  rw [if_pos (by simp; omega)]
  rw [if_neg hout]
  rw [Done_spec _ f (nw + 1) off rfl hnw2 hoff]
  have hfb : ({ fb with state := encodeState f nw off } : FlushBuffer) = fb := by
    rw [← h]
  simp only [Nat.add_sub_cancel, hfb]
  have heq : (nw + 1 == 1) = false := by
    simp; omega
  simp [heq]

theorem Alloc_spec_full (fb : FlushBuffer) (nw off : Nat) (sizes : List Nat)
    (h : fb.state = encodeState true nw off) (hnw : nw < 2 ^ 16)
    (hoff : off < 2 ^ 32) :
    fb.Alloc sizes = ⟨false, false, [], [], fb⟩ := by
  unfold FlushBuffer.Alloc
  rw [h, decode_encode true nw off hnw hoff]
  simp

theorem Alloc_spec_overflow (fb : FlushBuffer) (nw off : Nat) (sizes : List Nat)
    (h : fb.state = encodeState false nw off) (hnw : nw < 2 ^ 16)
    (hoff : off < 2 ^ 32) (hov : off + sizesTotal sizes > fb.b.length) :
    fb.Alloc sizes =
      ⟨false, true, [], [], { fb with state := encodeState true nw off }⟩ := by
  unfold FlushBuffer.Alloc
  rw [h, decode_encode false nw off hnw hoff]
  simp only [Bool.or_self, if_false, Bool.false_or]
  rw [if_pos hov]
  rfl

theorem Alloc_spec_ok (fb : FlushBuffer) (nw off : Nat) (sizes : List Nat)
    (h : fb.state = encodeState false nw off) (hnw : nw < 2 ^ 16)
    (hoff : off < 2 ^ 32) (hfit : off + sizesTotal sizes ≤ fb.b.length) :
    fb.Alloc sizes =
      ⟨true, false, (chunkPositions off sizes).map (fun r => fb.baseOffset + r),
        List.zipWith (fun pos sz => (pos + headerFBSize, sz))
          (chunkPositions off sizes) sizes,
        { fb with
            state := encodeState false (nw + 1) (off + sizesTotal sizes)
            b := (allocWrite fb.b off sizes).1 }⟩ := by
  unfold FlushBuffer.Alloc
  have hd := decode_encode false nw off hnw hoff
  rw [h]
  simp only [hd]
  rw [if_neg (by simp)]
  rw [if_neg (by omega)]
  rw [allocWrite_offs, allocWrite_bufs]

theorem getD_map (f : Nat → Nat) (l : List Nat) (i : Nat) (h : i < l.length) :
    (l.map f).getD i 0 = f (l.getD i 0) := by
  induction l generalizing i with
  | nil => simp at h
  | cons x xs ih =>
    match i with
    | 0 => rfl
    | i + 1 => exact ih i (by simpa using h)

theorem getD_zipWith (f : Nat → Nat → Nat × Nat) (l1 l2 : List Nat) (i : Nat)
    (h1 : i < l1.length) (h2 : i < l2.length) :
    (List.zipWith f l1 l2).getD i (0, 0) = f (l1.getD i 0) (l2.getD i 0) := by
  induction l1 generalizing l2 i with
  | nil => simp at h1
  | cons x xs ih =>
    match l2, i with
    | y :: ys, 0 => rfl
    | y :: ys, i + 1 => exact ih ys i (by simpa using h1) (by simpa using h2)
    | [], _ => simp at h2

@[simp] theorem chunkPositions_length (p : Nat) (l : List Nat) :
    (chunkPositions p l).length = l.length := by
  induction l generalizing p with
  | nil => rfl
  | cons sz rest ih => simp [chunkPositions, ih]

theorem sizesTotal_eq_sum (l : List Nat) :
    sizesTotal l = (l.map (fun sz => sz + headerFBSize)).sum := by
  induction l with
  | nil => rfl
  | cons sz rest ih => rw [sizesTotal_cons, List.map_cons, List.sum_cons, ih]

theorem chunkPositions_getD (p : Nat) (l : List Nat) (i : Nat) (h : i < l.length) :
    (chunkPositions p l).getD i 0 = p + sizesTotal (l.take i) := by
  induction l generalizing p i with
  | nil => simp at h
  | cons sz rest ih =>
    match i with
    | 0 => simp [chunkPositions, sizesTotal]
    | i + 1 =>
      show (chunkPositions (p + sz + headerFBSize) rest).getD i 0 = _
      rw [ih (p + sz + headerFBSize) i (by simpa using h)]
      rw [List.take_succ_cons, sizesTotal_cons]
      omega

theorem chunkPositions_bound (p : Nat) (l : List Nat) (i : Nat) (h : i < l.length) :
    (chunkPositions p l).getD i 0 + l.getD i 0 + headerFBSize ≤ p + sizesTotal l := by
  induction l generalizing p i with
  | nil => simp at h
  | cons sz rest ih =>
    match i with
    | 0 =>
      show p + sz + headerFBSize ≤ p + sizesTotal (sz :: rest)
      rw [sizesTotal_cons]
      have : 0 ≤ sizesTotal rest := Nat.zero_le _
      omega
    | i + 1 =>
      show (chunkPositions (p + sz + headerFBSize) rest).getD i 0 + rest.getD i 0 +
          headerFBSize ≤ p + sizesTotal (sz :: rest)
      have := ih (p + sz + headerFBSize) i (by simpa using h)
      rw [sizesTotal_cons]
      omega

/-- Claim C5: a successful `Alloc(sizes)` on a flush buffer whose decoded
state offset is `off` (not full, not reset) advances the state offset by
exactly `Σ (size + 4)`, increases the writer count by exactly one
regardless of the number of chunks, and for each chunk `i` returns the
log offset `baseOffset + position`, where `position` is the chunk's
in-buffer position `off + Σ_{j<i} (sizes_j + 4)`, a writable slice of
length `sizes_i`, and stores `sizes_i` big-endian in the 4 bytes
immediately preceding the slice. -/
theorem claim_C5_alloc_postconditions (fb : FlushBuffer) (nw off : Nat)
    (sizes : List Nat)
    (h : fb.state = encodeState false nw off) (hnw : nw + 1 < 2 ^ 16)
    (hlen : fb.b.length < 2 ^ 32)
    (hfit : off + sizesTotal sizes ≤ fb.b.length)
    (hsz : ∀ sz ∈ sizes, sz < 2 ^ 32) :
    (fb.Alloc sizes).status = true ∧
    decodeState (fb.Alloc sizes).fb.state =
      (false, false, nw + 1, off + sizesTotal sizes) ∧
    sizesTotal sizes = (sizes.map (fun sz => sz + headerFBSize)).sum ∧
    (fb.Alloc sizes).offs.length = sizes.length ∧
    (fb.Alloc sizes).bufs.length = sizes.length ∧
    (∀ i, i < sizes.length →
      (fb.Alloc sizes).offs.getD i 0 =
        fb.baseOffset + off + sizesTotal (sizes.take i) ∧
      (fb.Alloc sizes).bufs.getD i (0, 0) =
        (off + sizesTotal (sizes.take i) + headerFBSize, sizes.getD i 0) ∧
      (((fb.Alloc sizes).fb.b.drop
          (off + sizesTotal (sizes.take i) + headerFBSize)).take
        (sizes.getD i 0)).length = sizes.getD i 0 ∧
      readUint32BE (fb.Alloc sizes).fb.b (off + sizesTotal (sizes.take i)) =
        sizes.getD i 0) := by
  have hoff : off < 2 ^ 32 := by omega
  rw [Alloc_spec_ok fb nw off sizes h (by omega) hoff hfit]
  refine ⟨rfl, ?_, ?_, ?_, ?_, ?_⟩
  · exact decode_encode false (nw + 1) (off + sizesTotal sizes) hnw (by omega)
  · exact sizesTotal_eq_sum sizes
  · simp
  · simp [List.length_zipWith]
  · intro i hi
    have hcp := chunkPositions_getD off sizes i hi
    refine ⟨?_, ?_, ?_, ?_⟩
    · show ((chunkPositions off sizes).map (fun r => fb.baseOffset + r)).getD i 0 = _
      rw [getD_map _ _ i (by simpa using hi), hcp]
      omega
    · show (List.zipWith (fun pos sz => (pos + headerFBSize, sz))
          (chunkPositions off sizes) sizes).getD i (0, 0) = _
      rw [getD_zipWith _ _ _ i (by simpa using hi) hi, hcp]
    · have hb := chunkPositions_bound off sizes i hi
      rw [hcp] at hb
      show (((allocWrite fb.b off sizes).1.drop _).take _).length = _
      rw [List.length_take, List.length_drop, allocWrite_length]
      omega
    · have hdr := allocWrite_headers fb.b off sizes hfit i hi
      rw [hcp] at hdr
      have hmem : sizes.getD i 0 ∈ sizes := by
        rw [List.getD_eq_getElem sizes 0 hi]
        exact List.getElem_mem _
      rw [hdr, Nat.mod_eq_of_lt (hsz _ hmem)]

/-- Claim C6, amended: for a flush buffer whose state word decodes to a
positive writer count with the reset bit clear, `Read(off, buf)` at any
`off` with `baseOffset ≤ off < baseOffset + offset` succeeds: it returns
the length stored in the 4-byte big-endian header at that in-buffer
position together with the payload bytes following the header, reports
no error, and leaves the writer count (indeed the whole buffer) exactly
as it was before the call.  Without the positive-writer-count/not-reset
precondition the claim is false, see the counterexample. -/
theorem claim_C6_read_in_range (fb : FlushBuffer) (f : Bool)
    (nw off rdOff : Nat)
    (h : fb.state = encodeState f nw off) (hnw : 1 ≤ nw)
    (hnw2 : nw + 1 < 2 ^ 16) (hoff : off < 2 ^ 32)
    (hin : fb.baseOffset ≤ rdOff ∧ rdOff < fb.baseOffset + off) :
    fb.Read rdOff =
      (some (readUint32BE fb.b (rdOff - fb.baseOffset),
        (fb.b.drop (rdOff - fb.baseOffset + headerFBSize)).take
          (readUint32BE fb.b (rdOff - fb.baseOffset))), fb, false) ∧
    decodeState (fb.Read rdOff).2.1.state = (f, false, nw, off) := by
  have hs := Read_spec_ok fb f nw off rdOff h hnw hnw2 hoff hin
  refine ⟨hs, ?_⟩
  rw [hs, h]
  exact decode_encode f nw off (by omega) hoff

/-- Claim C6 counterexample: a buffer whose writer count is zero (for
example one whose writers have all finished) refuses an in-range read.
Here the decoded state offset is 8, so `off = 0` lies in
`[baseOffset, baseOffset + offset) = [0, 8)`, yet `Read` returns the
error (`none`), contradicting the claim that every in-range read
succeeds. -/
theorem claim_C6_counterexample :
    (decodeState (encodeState false 0 8)).2.2.2 = 8 ∧
    (FlushBuffer.Read ⟨0, encodeState false 0 8, List.replicate 12 0⟩ 0).1 =
      none := by
  constructor
  · decide
  · decide

theorem claim_C6_witness :
    FlushBuffer.Read ⟨0, encodeState false 2 8, [0, 0, 0, 3, 9, 8, 7, 0, 0, 0, 0, 0]⟩ 0 =
      (some (3, [9, 8, 7]),
        ⟨0, encodeState false 2 8, [0, 0, 0, 3, 9, 8, 7, 0, 0, 0, 0, 0]⟩, false) := by
  have h := claim_C6_read_in_range
    ⟨0, encodeState false 2 8, [0, 0, 0, 3, 9, 8, 7, 0, 0, 0, 0, 0]⟩ false 2 8 0
    rfl (by norm_num) (by norm_num) (by norm_num) (by exact ⟨by norm_num, by norm_num⟩)
  rw [h.1]
  decide

/-- Fueled embedding of `lsStore.ReserveSpaceMulti` (lss.go).  The ring
of flush buffers is modelled by the buffer currently at the tail: an
attempt allocates from it; on `markedFull` the loop rotates, and
`initNextBuffer` hands it the next buffer, freshly initialized with
`baseOffset = currFb.EndOffset()` and state `encodeState false 2 0`
(one writer reference for the flush-ordering parent and one for the
closer); on any other failure the source calls `runtime.Gosched()` and
retries the same buffer.  The source loop can run forever, so the
embedding takes fuel; `none` means the loop has not returned. -/
def reserveSpaceMulti (cap base st : Nat) (sizes : List Nat) :
    Nat → Option (List Nat × FlushBuffer)
  | 0 => none
  | fuel + 1 =>
    let fb : FlushBuffer := ⟨base, st, List.replicate cap 0⟩
    let r := fb.Alloc sizes
    if r.status then some (r.offs, r.fb)
    else if r.markedFull then
      reserveSpaceMulti cap r.fb.EndOffset (encodeState false 2 0) sizes fuel
    else
      reserveSpaceMulti cap base st sizes fuel

/-- Claim C7 counterexample: reserving a single record of size 8 in a
store with flush buffers of capacity 8 (so that `size + 4 > capacity`)
never returns to the caller: after 16 rotations the loop is still
spinning, and `ReserveSpaceMulti` has no error channel at all — its
result type carries no error value.  This contradicts the claim that
the failure "is returned to the caller as an error". -/
theorem claim_C7_counterexample :
    reserveSpaceMulti 8 0 (encodeState false 2 0) [8] 16 = none := by
  decide

/-- Claim C7, amended: a single-record reservation whose size plus the
4-byte header exceeds the flush-buffer capacity deterministically fails
at the buffer level — `Alloc` returns no space and no slice and leaves
the slab bytes untouched, so the record is never truncated — but the
failure is not returned to the caller as an error: `ReserveSpaceMulti`
has no error result, and the reservation loop rotates buffers forever
without returning (for every amount of fuel the fueled loop yields
`none`). -/
theorem claim_C7_oversized_alloc (cap base st fuel s : Nat)
    (hs : s + headerFBSize > cap) :
    (∀ fb : FlushBuffer, fb.b.length = cap →
      (fb.Alloc [s]).status = false ∧ (fb.Alloc [s]).offs = [] ∧
      (fb.Alloc [s]).bufs = [] ∧ (fb.Alloc [s]).fb.b = fb.b) ∧
    reserveSpaceMulti cap base st [s] fuel = none := by
  have htot : sizesTotal [s] = s + headerFBSize := by
    simp [sizesTotal]
  have halloc : ∀ fb : FlushBuffer, fb.b.length = cap →
      (fb.Alloc [s]).status = false ∧ (fb.Alloc [s]).offs = [] ∧
      (fb.Alloc [s]).bufs = [] ∧ (fb.Alloc [s]).fb.b = fb.b := by
    intro fb hcap
    unfold FlushBuffer.Alloc
    rcases hd : decodeState fb.state with ⟨f, r, nw, off⟩
    by_cases hfr : (f || r) = true
    · simp [hfr]
    · simp only [hfr, if_false, Bool.false_eq_true]
      rw [if_pos (by rw [htot, hcap]; omega)]
      exact ⟨rfl, rfl, rfl, rfl⟩
  refine ⟨halloc, ?_⟩
  induction fuel generalizing base st with
  | zero => rfl
  | succ fuel ih =>
    unfold reserveSpaceMulti
    have h1 := (halloc ⟨base, st, List.replicate cap 0⟩ (by simp)).1
    simp only [h1, Bool.false_eq_true, if_false]
    by_cases hm :
        ((⟨base, st, List.replicate cap 0⟩ : FlushBuffer).Alloc [s]).markedFull = true
    · simp only [hm, if_true]
      exact ih _ _
    · simp only [hm, Bool.false_eq_true, if_false]
      exact ih _ _

theorem claim_C7_witness :
    ((⟨0, encodeState false 1 0, List.replicate 8 0⟩ : FlushBuffer).Alloc [8]).status =
      false ∧
    reserveSpaceMulti 8 0 (encodeState false 2 0) [8] 5 = none := by
  have h := claim_C7_oversized_alloc 8 0 (encodeState false 2 0) 5 8
    (by norm_num [headerFBSize])
  exact ⟨(h.1 ⟨0, encodeState false 1 0, List.replicate 8 0⟩ (by simp)).1, h.2⟩

/-- `contig p l q`: the reservations `(logOffset, size)` in `l` tile the
log contiguously from `p` to `q`, each one occupying the byte range
`[offset, offset + size + headerFBSize)`. -/
def contig : Nat → List (Nat × Nat) → Nat → Prop
  | p, [], q => p = q
  | p, c :: rest, q => c.1 = p ∧ contig (p + c.2 + headerFBSize) rest q

theorem contig_append {l1 l2 : List (Nat × Nat)} {p q r : Nat}
    (h1 : contig p l1 q) (h2 : contig q l2 r) : contig p (l1 ++ l2) r := by
  induction l1 generalizing p with
  | nil => cases h1; simpa using h2
  | cons c rest ih => exact ⟨h1.1, ih h1.2⟩

theorem contig_mem_ge {p q : Nat} {l : List (Nat × Nat)} (h : contig p l q) :
    ∀ c ∈ l, p ≤ c.1 := by
  induction l generalizing p with
  | nil => intro c hc; simp at hc
  | cons d rest ih =>
    intro c hc
    rcases List.mem_cons.mp hc with rfl | hc'
    · exact Nat.le_of_eq h.1.symm
    · have := ih h.2 c hc'
      omega

theorem contig_pairwise {p q : Nat} {l : List (Nat × Nat)} (h : contig p l q) :
    l.Pairwise (fun a b => a.1 + a.2 + headerFBSize ≤ b.1) := by
  induction l generalizing p with
  | nil => exact List.Pairwise.nil
  | cons c rest ih =>
    refine List.Pairwise.cons ?_ (ih h.2)
    intro b hb
    have hge := contig_mem_ge h.2 b hb
    have hc := h.1
    omega

theorem contig_consecutive {p q : Nat} {l : List (Nat × Nat)} (h : contig p l q)
    (i : Nat) (hi : i + 1 < l.length) :
    (l.getD (i + 1) (0, 0)).1 =
      (l.getD i (0, 0)).1 + (l.getD i (0, 0)).2 + headerFBSize := by
  induction l generalizing p i with
  | nil => simp at hi
  | cons c rest ih =>
    match i with
    | 0 =>
      match rest, h.2, hi with
      | d :: rest', h2, _ =>
        show d.1 = c.1 + c.2 + headerFBSize
        rw [h.1, h2.1]
    | i + 1 => exact ih h.2 i (by simpa using hi)

theorem zip_chunk_contig (base p : Nat) (sizes : List Nat) :
    contig (base + p)
      (((chunkPositions p sizes).map (fun r => base + r)).zip sizes)
      (base + p + sizesTotal sizes) := by
  induction sizes generalizing p with
  | nil =>
    show base + p = base + p + sizesTotal []
    simp [sizesTotal]
  | cons sz rest ih =>
    refine ⟨rfl, ?_⟩
    have := ih (p + sz + headerFBSize)
    rw [sizesTotal_cons]
    have harith : base + p + sz + headerFBSize = base + (p + sz + headerFBSize) := by
      omega
    rw [harith]
    have harith2 : base + p + (sz + headerFBSize + sizesTotal rest) =
        base + (p + sz + headerFBSize) + sizesTotal rest := by omega
    rw [harith2]
    exact this

/-- A sequence of `Alloc` calls against the same flush buffer
(reservations served from one buffer between two rotations): collects,
for each successful call, the list of `(log offset, size)` pairs it
returned, in order. -/
def allocRuns (fb : FlushBuffer) :
    List (List Nat) → List (List (Nat × Nat)) × FlushBuffer
  | [] => ([], fb)
  | sizes :: rest =>
    let r := fb.Alloc sizes
    let t := allocRuns r.fb rest
    (if r.status then (r.offs.zip sizes) :: t.1 else t.1, t.2)

theorem allocRuns_full (fb : FlushBuffer) (nw off : Nat)
    (reqs : List (List Nat)) (h : fb.state = encodeState true nw off)
    (hnw : nw < 2 ^ 16) (hoff : off < 2 ^ 32) :
    (allocRuns fb reqs).1 = [] := by
  induction reqs with
  | nil => rfl
  | cons sizes rest ih =>
    unfold allocRuns
    rw [Alloc_spec_full fb nw off sizes h hnw hoff]
    simpa using ih

theorem allocRuns_contig (reqs : List (List Nat)) (fb : FlushBuffer)
    (nw off : Nat) (h : fb.state = encodeState false nw off)
    (hnw : nw + reqs.length < 2 ^ 16) (hoff : off ≤ fb.b.length)
    (hlen : fb.b.length < 2 ^ 32) :
    (∃ q, contig (fb.baseOffset + off) (allocRuns fb reqs).1.flatten q) ∧
    (∀ run ∈ (allocRuns fb reqs).1, ∃ p q, contig p run q) := by
  induction reqs generalizing fb nw off with
  | nil =>
    refine ⟨⟨fb.baseOffset + off, rfl⟩, ?_⟩
    intro run hrun
    simp [allocRuns] at hrun
  | cons sizes rest ih =>
    by_cases hfit : off + sizesTotal sizes ≤ fb.b.length
    · have hsp := Alloc_spec_ok fb nw off sizes h (by omega) (by omega) hfit
      unfold allocRuns
      rw [hsp]
      simp only [if_true]
      have hfb' : ((⟨true, false,
          (chunkPositions off sizes).map (fun r => fb.baseOffset + r),
          List.zipWith (fun pos sz => (pos + headerFBSize, sz))
            (chunkPositions off sizes) sizes,
          { fb with
              state := encodeState false (nw + 1) (off + sizesTotal sizes)
              b := (allocWrite fb.b off sizes).1 }⟩ : AllocResult)).fb =
          { fb with
              state := encodeState false (nw + 1) (off + sizesTotal sizes)
              b := (allocWrite fb.b off sizes).1 } := rfl
      have hihyp := ih
        { fb with
            state := encodeState false (nw + 1) (off + sizesTotal sizes)
            b := (allocWrite fb.b off sizes).1 }
        (nw + 1) (off + sizesTotal sizes) rfl
        (by simp at hnw ⊢; omega)
        (by rw [allocWrite_length]; exact hfit)
        (by rw [allocWrite_length]; exact hlen)
      rcases hihyp with ⟨⟨q, hq⟩, hruns⟩
      have hhead := zip_chunk_contig fb.baseOffset off sizes
      constructor
      · refine ⟨q, ?_⟩
        rw [List.flatten_cons]
        refine contig_append hhead ?_
        have harith : fb.baseOffset + off + sizesTotal sizes =
            fb.baseOffset + (off + sizesTotal sizes) := by omega
        rw [harith]
        exact hq
      · intro run hrun
        rcases List.mem_cons.mp hrun with rfl | hrun'
        · exact ⟨fb.baseOffset + off, fb.baseOffset + off + sizesTotal sizes, hhead⟩
        · exact hruns run hrun'
    · have hsp := Alloc_spec_overflow fb nw off sizes h (by omega) (by omega)
        (by omega)
      unfold allocRuns
      rw [hsp]
      simp only [Bool.false_eq_true, if_false]
      have hempty := allocRuns_full
        { fb with state := encodeState true nw off } nw off rest rfl
        (by omega) (by omega)
      constructor
      · refine ⟨fb.baseOffset + off, ?_⟩
        simp only [hempty]
        rfl
      · intro run hrun
        rw [hempty] at hrun
        simp at hrun

/-- Claim C4: over any sequence of space reservations served from the
same flush buffer (initially not full, not reset), the byte ranges
`[offset, offset + size + 4)` of all successfully reserved chunks are
pairwise non-overlapping, the returned log offsets are strictly
increasing in reservation order, and within a single multi-chunk
reservation each chunk's offset equals the previous chunk's offset plus
its size plus the 4-byte header. -/
theorem claim_C4_reservations_disjoint_monotone (fb : FlushBuffer)
    (nw off : Nat) (reqs : List (List Nat))
    (h : fb.state = encodeState false nw off)
    (hnw : nw + reqs.length < 2 ^ 16) (hoff : off ≤ fb.b.length)
    (hlen : fb.b.length < 2 ^ 32) :
    (allocRuns fb reqs).1.flatten.Pairwise
      (fun a b => a.1 + a.2 + headerFBSize ≤ b.1) ∧
    ((allocRuns fb reqs).1.flatten.map Prod.fst).Pairwise (· < ·) ∧
    (∀ run ∈ (allocRuns fb reqs).1, ∀ i, i + 1 < run.length →
      (run.getD (i + 1) (0, 0)).1 =
        (run.getD i (0, 0)).1 + (run.getD i (0, 0)).2 + headerFBSize) := by
  obtain ⟨⟨q, hq⟩, hruns⟩ := allocRuns_contig reqs fb nw off h hnw hoff hlen
  have hpw := contig_pairwise hq
  refine ⟨hpw, ?_, ?_⟩
  · rw [List.pairwise_map]
    refine hpw.imp ?_
    intro a b hab
    have h4 : headerFBSize = 4 := rfl
    omega
  · intro run hrun i hi
    obtain ⟨p, q', hc⟩ := hruns run hrun
    exact contig_consecutive hc i hi

theorem claim_C4_witness :
    (allocRuns ⟨50, encodeState false 1 0, List.replicate 32 0⟩
      [[3, 2], [5]]).1.flatten.Pairwise
      (fun a b => a.1 + a.2 + headerFBSize ≤ b.1) :=
  (claim_C4_reservations_disjoint_monotone
    ⟨50, encodeState false 1 0, List.replicate 32 0⟩ 1 0 [[3, 2], [5]]
    rfl (by norm_num) (by decide) (by decide)).1

theorem claim_C5_witness :
    ((⟨100, encodeState false 1 0, List.replicate 32 0⟩ : FlushBuffer).Alloc
      [3, 2]).status = true ∧
    decodeState ((⟨100, encodeState false 1 0,
      List.replicate 32 0⟩ : FlushBuffer).Alloc [3, 2]).fb.state =
      (false, false, 2, 13) := by
  have h := claim_C5_alloc_postconditions
    ⟨100, encodeState false 1 0, List.replicate 32 0⟩ 1 0 [3, 2]
    rfl (by norm_num) (by decide) (by decide) (by decide)
  exact ⟨h.1, h.2.1⟩

/-- One client operation against a flush buffer between two resets, as
enumerated by the claim: a space reservation, a close attempt, a
positional read, or a writer completion. -/
inductive FBOp where
  | alloc (sizes : List Nat)
  | tryClose (thr : Nat)
  | read (off : Nat)
  | done
deriving DecidableEq

/-- Applies one operation to the buffer.  The returned Nat counts how
many times the flush callback fired during the step (a `Read` performs
an inner `Done`, so it could in principle fire it too). -/
def fbStep (fb : FlushBuffer) : FBOp → FlushBuffer × Nat
  | .alloc sizes => ((fb.Alloc sizes).fb, 0)
  | .tryClose thr => ((fb.TryClose thr).2.2, 0)
  | .read off =>
    let r := fb.Read off
    (r.2.1, if r.2.2 then 1 else 0)
  | .done =>
    let d := fb.Done
    (d.1, if d.2 then 1 else 0)

/-- Runs a sequence of operations, accumulating the number of flush
callback firings. -/
def fbRun (fb : FlushBuffer) : List FBOp → FlushBuffer × Nat
  | [] => (fb, 0)
  | op :: rest =>
    let s := fbStep fb op
    let t := fbRun s.1 rest
    (t.1, s.2 + t.2)

/-- The reference discipline of lss.go: every `Done` call matches an
outstanding writer reference, and the final reference — the one
`initNextBuffer` reserves for whoever closes the buffer — is dropped
only after the buffer has been marked full. -/
def doneSafe (fb : FlushBuffer) : List FBOp → Bool
  | [] => true
  | op :: rest =>
    (match op with
     | FBOp.done =>
       decide (1 ≤ (decodeState fb.state).2.2.1) &&
         (!decide ((decodeState fb.state).2.2.1 = 1) || (decodeState fb.state).1)
     | _ => true) && doneSafe (fbStep fb op).1 rest

/-- 1 when the buffer is full with no outstanding writers (the callback
has fired), 0 otherwise. -/
def firedIndicator (f : Bool) (nw : Nat) : Nat :=
  if f = true ∧ nw = 0 then 1 else 0

theorem fbRun_invariant (ops : List FBOp) (fb : FlushBuffer) (f : Bool)
    (nw off : Nat) (h : fb.state = encodeState f nw off)
    (hnw : nw + ops.length < 2 ^ 16) (hoff : off ≤ fb.b.length)
    (hlen : fb.b.length < 2 ^ 32) (hpos : f = false → 1 ≤ nw)
    (hsafe : doneSafe fb ops = true) :
    ∃ f' nw' off',
      (fbRun fb ops).1.state = encodeState f' nw' off' ∧
      (fbRun fb ops).1.b.length = fb.b.length ∧
      off' ≤ fb.b.length ∧
      nw' ≤ nw + ops.length ∧
      (f' = false → 1 ≤ nw') ∧
      (fbRun fb ops).2 + firedIndicator f nw = firedIndicator f' nw' := by
  induction ops generalizing fb f nw off with
  | nil =>
    exact ⟨f, nw, off, h, rfl, hoff, by simp, hpos, by simp [fbRun]⟩
  | cons op rest ih =>
    have hnw16 : nw < 2 ^ 16 := by simp at hnw; omega
    have hoff32 : off < 2 ^ 32 := by omega
    have hsafe' : doneSafe (fbStep fb op).1 rest = true := by
      have hx := hsafe
      unfold doneSafe at hx
      exact (Bool.and_eq_true _ _ |>.mp hx).2
    have hrun : fbRun fb (op :: rest) =
        ((fbRun (fbStep fb op).1 rest).1,
         (fbStep fb op).2 + (fbRun (fbStep fb op).1 rest).2) := rfl
    cases op with
    | alloc sizes =>
      cases f with
      | true =>
        have hstep : fbStep fb (.alloc sizes) = (fb, 0) := by
          simp only [fbStep]
          rw [Alloc_spec_full fb nw off sizes h hnw16 hoff32]
        rw [hrun, hstep]
        obtain ⟨f', nw', off', h1, h2, h3, h4, h5, h6⟩ :=
          ih fb true nw off h (by simp at hnw ⊢; omega) hoff hlen (by simp)
            (by simpa only [hstep] using hsafe')
        exact ⟨f', nw', off', h1, h2, h3, by simp at h4 ⊢; omega, h5,
          by simpa using h6⟩
      | false =>
        by_cases hfit : off + sizesTotal sizes ≤ fb.b.length
        · have hsp := Alloc_spec_ok fb nw off sizes h hnw16 hoff32 hfit
          have hstep : fbStep fb (.alloc sizes) =
              ({ fb with
                  state := encodeState false (nw + 1) (off + sizesTotal sizes)
                  b := (allocWrite fb.b off sizes).1 }, 0) := by
            simp only [fbStep]
            rw [hsp]
          rw [hrun, hstep]
          obtain ⟨f', nw', off', h1, h2, h3, h4, h5, h6⟩ :=
            ih { fb with
                  state := encodeState false (nw + 1) (off + sizesTotal sizes)
                  b := (allocWrite fb.b off sizes).1 }
              false (nw + 1) (off + sizesTotal sizes) rfl
              (by simp at hnw ⊢; omega)
              (by rw [allocWrite_length]; exact hfit)
              (by rw [allocWrite_length]; exact hlen)
              (by omega) (by simpa only [hstep] using hsafe')
          rw [allocWrite_length] at h2 h3
          refine ⟨f', nw', off', h1, h2, h3, by simp at h4 ⊢; omega, h5, ?_⟩
          simpa [firedIndicator] using h6
        · have hsp := Alloc_spec_overflow fb nw off sizes h hnw16 hoff32 (by omega)
          have hstep : fbStep fb (.alloc sizes) =
              ({ fb with state := encodeState true nw off }, 0) := by
            simp only [fbStep]
            rw [hsp]
          rw [hrun, hstep]
          obtain ⟨f', nw', off', h1, h2, h3, h4, h5, h6⟩ :=
            ih { fb with state := encodeState true nw off } true nw off rfl
              (by simp at hnw ⊢; omega) hoff hlen (by simp)
              (by simpa only [hstep] using hsafe')
          refine ⟨f', nw', off', h1, h2, h3, by simp at h4 ⊢; omega, h5, ?_⟩
          have hnwpos : 1 ≤ nw := hpos rfl
          have hind : firedIndicator true nw = firedIndicator false nw := by
            simp [firedIndicator]
            omega
          rw [← hind]
          simpa using h6
    | tryClose thr =>
      by_cases hthr : off < thr
      · have hstep : fbStep fb (.tryClose thr) = (fb, 0) := by
          simp only [fbStep]
          rw [TryClose_spec_lt fb f nw off thr h hnw16 hoff32 hthr]
        rw [hrun, hstep]
        obtain ⟨f', nw', off', h1, h2, h3, h4, h5, h6⟩ :=
          ih fb f nw off h (by simp at hnw ⊢; omega) hoff hlen hpos
            (by simpa only [hstep] using hsafe')
        exact ⟨f', nw', off', h1, h2, h3, by simp at h4 ⊢; omega, h5,
          by simpa using h6⟩
      · cases f with
        | false =>
          have hstep : fbStep fb (.tryClose thr) =
              ({ fb with state := encodeState true nw off }, 0) := by
            simp only [fbStep]
            rw [TryClose_spec_close fb nw off thr h hnw16 hoff32 hthr]
          rw [hrun, hstep]
          obtain ⟨f', nw', off', h1, h2, h3, h4, h5, h6⟩ :=
            ih { fb with state := encodeState true nw off } true nw off rfl
              (by simp at hnw ⊢; omega) hoff hlen (by simp)
              (by simpa only [hstep] using hsafe')
          refine ⟨f', nw', off', h1, h2, h3, by simp at h4 ⊢; omega, h5, ?_⟩
          have hnwpos : 1 ≤ nw := hpos rfl
          have hind : firedIndicator true nw = firedIndicator false nw := by
            simp [firedIndicator]
            omega
          rw [← hind]
          simpa using h6
        | true =>
          have hstep : fbStep fb (.tryClose thr) = (fb, 0) := by
            simp only [fbStep]
            rw [TryClose_spec_full fb nw off thr h hnw16 hoff32 hthr]
          rw [hrun, hstep]
          obtain ⟨f', nw', off', h1, h2, h3, h4, h5, h6⟩ :=
            ih fb true nw off h (by simp at hnw ⊢; omega) hoff hlen (by simp)
              (by simpa only [hstep] using hsafe')
          exact ⟨f', nw', off', h1, h2, h3, by simp at h4 ⊢; omega, h5,
            by simpa using h6⟩
    | read rdOff =>
      have hstep : fbStep fb (.read rdOff) = (fb, 0) := by
        simp only [fbStep]
        rcases Nat.eq_zero_or_pos nw with hz | hp
        · subst hz
          rw [Read_spec_nw0 fb f off rdOff h hoff32]
          rfl
        · by_cases hin : fb.baseOffset ≤ rdOff ∧ rdOff < fb.baseOffset + off
          · rw [Read_spec_ok fb f nw off rdOff h hp (by simp at hnw; omega)
              hoff32 hin]
            rfl
          · rw [Read_spec_out fb f nw off rdOff h hp (by simp at hnw; omega)
              hoff32 hin]
            rfl
      rw [hrun, hstep]
      obtain ⟨f', nw', off', h1, h2, h3, h4, h5, h6⟩ :=
        ih fb f nw off h (by simp at hnw ⊢; omega) hoff hlen hpos
          (by simpa only [hstep] using hsafe')
      exact ⟨f', nw', off', h1, h2, h3, by simp at h4 ⊢; omega, h5,
        by simpa using h6⟩
    | done =>
      have hcond : 1 ≤ nw ∧ (nw = 1 → f = true) := by
        have hx := hsafe
        unfold doneSafe at hx
        have hc := (Bool.and_eq_true _ _ |>.mp hx).1
        rw [h, decode_encode f nw off hnw16 hoff32] at hc
        simp at hc
        obtain ⟨hc1, hc2⟩ := hc
        refine ⟨hc1, fun h1 => ?_⟩
        rcases hc2 with h2 | h2
        · omega
        · exact h2
      have hds := Done_spec fb f nw off h hnw16 hoff32
      have hstep : fbStep fb .done =
          ({ fb with state := encodeState f (nw - 1) off },
           if nw == 1 && f then 1 else 0) := by
        simp only [fbStep]
        rw [hds]
      rw [hrun, hstep]
      obtain ⟨f', nw', off', h1, h2, h3, h4, h5, h6⟩ :=
        ih { fb with state := encodeState f (nw - 1) off } f (nw - 1) off rfl
          (by simp at hnw ⊢; omega) hoff hlen
          (by
            intro hf
            have h1nw := hcond.1
            have h2nw := hcond.2
            rcases Nat.lt_or_ge nw 2 with hlt | hge
            · have hone : nw = 1 := by omega
              rw [hf] at h2nw
              have := h2nw hone
              simp at this
            · omega)
          (by simpa only [hstep] using hsafe')
      refine ⟨f', nw', off', h1, h2, h3, by simp at h4 ⊢; omega, h5, ?_⟩
      rcases Nat.lt_or_ge nw 2 with hlt | hge
      · have hnw1 : nw = 1 := by omega
        have hf : f = true := hcond.2 hnw1
        subst hf
        rw [hnw1] at h6 ⊢
        simp [firedIndicator] at h6 ⊢
        omega
      · dsimp only
        have hif : (if (nw == 1 && f) = true then 1 else 0) = 0 := by
          have h1 : (nw == 1) = false := by simp; omega
          simp [h1]
        rw [hif]
        have hind1 : firedIndicator f nw = 0 := by
          unfold firedIndicator
          exact if_neg (fun hcc => absurd hcc.2 (by omega))
        have hind2 : firedIndicator f (nw - 1) = 0 := by
          unfold firedIndicator
          exact if_neg (fun hcc => absurd hcc.2 (by omega))
        rw [hind1]
        rw [hind2] at h6
        omega

/-- Claim C2: first, every call to `Done` decrements the writer count by
exactly one, and the flush callback is invoked exactly when the call
transitions the count from one to zero while the full bit is set.
Second, over any sequence of `Alloc`, `TryClose`, `Read` and `Done`
operations on a buffer between two resets that respects the
writer-reference discipline (each `Done` matches an outstanding
reference, and the closing reference is dropped only after the buffer
is marked full — the discipline `initNextBuffer` sets up by reserving a
reference for the closer), the flush callback fires exactly once when
the run ends with the buffer full and all writers done, and never
fires before that: the callback count is 1 exactly when the final state
is full with writer count zero, and 0 otherwise. -/
theorem claim_C2_done_callback :
    (∀ (fb : FlushBuffer) (f : Bool) (nw off : Nat),
      fb.state = encodeState f nw off → 1 ≤ nw → nw < 2 ^ 16 →
      off < 2 ^ 32 →
      decodeState (fb.Done).1.state = (f, false, nw - 1, off) ∧
      ((fb.Done).2 = true ↔ (nw = 1 ∧ f = true))) ∧
    (∀ (ops : List FBOp) (fb : FlushBuffer) (nw off : Nat),
      fb.state = encodeState false nw off → 1 ≤ nw →
      nw + ops.length < 2 ^ 16 → off ≤ fb.b.length →
      fb.b.length < 2 ^ 32 → doneSafe fb ops = true →
      (fbRun fb ops).2 ≤ 1 ∧
      ((fbRun fb ops).2 = 1 ↔
        ((decodeState (fbRun fb ops).1.state).1 = true ∧
         (decodeState (fbRun fb ops).1.state).2.2.1 = 0))) := by
  constructor
  · intro fb f nw off h hnw1 hnw16 hoff32
    rw [Done_spec fb f nw off h hnw16 hoff32]
    constructor
    · exact decode_encode f (nw - 1) off (by omega) hoff32
    · show (nw == 1 && f) = true ↔ _
      constructor
      · intro hx
        simp at hx
        exact hx
      · intro hx
        simp [hx.1, hx.2]
  · intro ops fb nw off h hnw1 hnw hoff hlen hsafe
    obtain ⟨f', nw', off', h1, h2, h3, h4, h5, h6⟩ :=
      fbRun_invariant ops fb false nw off h hnw hoff hlen (fun _ => hnw1) hsafe
    have hzero : firedIndicator false nw = 0 := by
      simp [firedIndicator]
    rw [hzero] at h6
    have hcount : (fbRun fb ops).2 = firedIndicator f' nw' := by omega
    have hdec : decodeState (fbRun fb ops).1.state = (f', false, nw', off') := by
      rw [h1]
      exact decode_encode f' nw' off' (by omega) (by omega)
    rw [hcount, hdec]
    constructor
    · unfold firedIndicator
      split <;> omega
    · unfold firedIndicator
      constructor
      · intro hx
        by_cases hc : f' = true ∧ nw' = 0
        · exact hc
        · rw [if_neg hc] at hx
          omega
      · intro hx
        rw [if_pos hx]

theorem claim_C2_witness :
    ((⟨0, encodeState true 1 5, []⟩ : FlushBuffer).Done).2 = true ∧
    (fbRun ⟨0, encodeState false 1 0, List.replicate 16 0⟩
      [FBOp.alloc [2], FBOp.tryClose 0, FBOp.done, FBOp.done]).2 = 1 := by
  have h1 := (claim_C2_done_callback.1 ⟨0, encodeState true 1 5, []⟩ true 1 5 rfl
    (by norm_num) (by norm_num) (by norm_num)).2
  have h2 := (claim_C2_done_callback.2
    [FBOp.alloc [2], FBOp.tryClose 0, FBOp.done, FBOp.done]
    ⟨0, encodeState false 1 0, List.replicate 16 0⟩ 1 0 rfl
    (by norm_num) (by norm_num) (by decide) (by decide) (by decide)).2
  exact ⟨h1.mpr ⟨rfl, rfl⟩, h2.mpr (by decide)⟩

/-- Per-write-context statistics counters (`Stats` in plasma.go).  Go
int64 fields are modelled as `Int`; the four float64 derived metrics at
the end are carried opaquely as `Int` — neither `Merge` nor the
aggregation fold below performs any arithmetic on them. -/
structure Stats where
  Compacts : Int
  Splits : Int
  Merges : Int
  Inserts : Int
  Deletes : Int
  CompactConflicts : Int
  SplitConflicts : Int
  MergeConflicts : Int
  InsertConflicts : Int
  DeleteConflicts : Int
  SwapInConflicts : Int
  BytesIncoming : Int
  BytesWritten : Int
  FlushDataSz : Int
  MemSz : Int
  MemSzIndex : Int
  AllocSz : Int
  FreeSz : Int
  ReclaimSz : Int
  NumRecordAllocs : Int
  NumRecordFrees : Int
  NumRecordSwapOut : Int
  NumRecordSwapIn : Int
  AllocSzIndex : Int
  FreeSzIndex : Int
  ReclaimSzIndex : Int
  NumPages : Int
  LSSFrag : Int
  LSSDataSize : Int
  LSSUsedSpace : Int
  NumLSSReads : Int
  LSSReadBytes : Int
  NumLSSCleanerReads : Int
  LSSCleanerReadBytes : Int
  CacheHits : Int
  CacheMisses : Int
  WriteAmp : Int
  WriteAmpAvg : Int
  CacheHitRatio : Int
  ResidentRatio : Int
deriving DecidableEq

/-- `Stats.Merge` (plasma.go lines 134-168).  Go mutates the receiver
`s` field by field and — in the one anomalous line
`o.ReclaimSzIndex += o.ReclaimSzIndex` — also mutates the argument `o`;
the embedding returns the pair (new receiver, new argument). -/
def Stats.Merge (s o : Stats) : Stats × Stats :=
  ({ s with
      Compacts := s.Compacts + o.Compacts
      Splits := s.Splits + o.Splits
      Merges := s.Merges + o.Merges
      Inserts := s.Inserts + o.Inserts
      Deletes := s.Deletes + o.Deletes
      CompactConflicts := s.CompactConflicts + o.CompactConflicts
      SplitConflicts := s.SplitConflicts + o.SplitConflicts
      MergeConflicts := s.MergeConflicts + o.MergeConflicts
      InsertConflicts := s.InsertConflicts + o.InsertConflicts
      DeleteConflicts := s.DeleteConflicts + o.DeleteConflicts
      SwapInConflicts := s.SwapInConflicts + o.SwapInConflicts
      AllocSz := s.AllocSz + o.AllocSz
      FreeSz := s.FreeSz + o.FreeSz
      ReclaimSz := s.ReclaimSz + o.ReclaimSz
      AllocSzIndex := s.AllocSzIndex + o.AllocSzIndex
      FreeSzIndex := s.FreeSzIndex + o.FreeSzIndex
      NumRecordAllocs := s.NumRecordAllocs + o.NumRecordAllocs
      NumRecordFrees := s.NumRecordFrees + o.NumRecordFrees
      NumRecordSwapOut := s.NumRecordSwapOut + o.NumRecordSwapOut
      NumRecordSwapIn := s.NumRecordSwapIn + o.NumRecordSwapIn
      BytesIncoming := s.BytesIncoming + o.BytesIncoming
      NumLSSReads := s.NumLSSReads + o.NumLSSReads
      LSSReadBytes := s.LSSReadBytes + o.LSSReadBytes
      CacheHits := s.CacheHits + o.CacheHits
      CacheMisses := s.CacheMisses + o.CacheMisses },
   { o with ReclaimSzIndex := o.ReclaimSzIndex + o.ReclaimSzIndex })

/-- The aggregation loop of `GetStats` (plasma.go): starting from a
fresh zero-valued `Stats`, the receiver merges the per-context stats of
every write context in `wCtxList`.  Only the updated receiver is
threaded; the mutation of each per-context argument (its doubled
`ReclaimSzIndex`) does not feed back into the fold, as in the source. -/
def mergeAll (acc : Stats) : List Stats → Stats
  | [] => acc
  | o :: rest => mergeAll (Stats.Merge acc o).1 rest

/-- Claim C10, amended: `Stats.Merge(o)` adds each of the counters it
covers from the argument `o` into the receiver `s`, with two exceptions
a spec reader would want to know.  First, `FlushDataSz` — a per-context
counter accumulated on `ctx.sts` throughout plasma.go and summed per
context by `LSSDataSize` — is never added by `Merge` at all, so the
`GetStats` aggregation fold never accumulates it (see the
counterexample to the one-exception form of the claim).  Second, the
receiver's `ReclaimSzIndex` is left unchanged while the argument's own
`ReclaimSzIndex` is doubled (`o.ReclaimSzIndex += o.ReclaimSzIndex` in
the source, where every other line writes to `s`), so the fold never
accumulates `ReclaimSzIndex` either.  All fields of the argument other
than `ReclaimSzIndex` are unmodified. -/
theorem claim_C10_stats_merge_reclaim (s o acc : Stats) (l : List Stats) :
    ((Stats.Merge s o).1.Compacts = s.Compacts + o.Compacts ∧
     (Stats.Merge s o).1.Splits = s.Splits + o.Splits ∧
     (Stats.Merge s o).1.Merges = s.Merges + o.Merges ∧
     (Stats.Merge s o).1.Inserts = s.Inserts + o.Inserts ∧
     (Stats.Merge s o).1.Deletes = s.Deletes + o.Deletes ∧
     (Stats.Merge s o).1.CompactConflicts =
       s.CompactConflicts + o.CompactConflicts ∧
     (Stats.Merge s o).1.SplitConflicts = s.SplitConflicts + o.SplitConflicts ∧
     (Stats.Merge s o).1.MergeConflicts = s.MergeConflicts + o.MergeConflicts ∧
     (Stats.Merge s o).1.InsertConflicts =
       s.InsertConflicts + o.InsertConflicts ∧
     (Stats.Merge s o).1.DeleteConflicts =
       s.DeleteConflicts + o.DeleteConflicts ∧
     (Stats.Merge s o).1.SwapInConflicts =
       s.SwapInConflicts + o.SwapInConflicts ∧
     (Stats.Merge s o).1.AllocSz = s.AllocSz + o.AllocSz ∧
     (Stats.Merge s o).1.FreeSz = s.FreeSz + o.FreeSz ∧
     (Stats.Merge s o).1.ReclaimSz = s.ReclaimSz + o.ReclaimSz ∧
     (Stats.Merge s o).1.AllocSzIndex = s.AllocSzIndex + o.AllocSzIndex ∧
     (Stats.Merge s o).1.FreeSzIndex = s.FreeSzIndex + o.FreeSzIndex ∧
     (Stats.Merge s o).1.NumRecordAllocs =
       s.NumRecordAllocs + o.NumRecordAllocs ∧
     (Stats.Merge s o).1.NumRecordFrees = s.NumRecordFrees + o.NumRecordFrees ∧
     (Stats.Merge s o).1.NumRecordSwapOut =
       s.NumRecordSwapOut + o.NumRecordSwapOut ∧
     (Stats.Merge s o).1.NumRecordSwapIn =
       s.NumRecordSwapIn + o.NumRecordSwapIn ∧
     (Stats.Merge s o).1.BytesIncoming = s.BytesIncoming + o.BytesIncoming ∧
     (Stats.Merge s o).1.NumLSSReads = s.NumLSSReads + o.NumLSSReads ∧
     (Stats.Merge s o).1.LSSReadBytes = s.LSSReadBytes + o.LSSReadBytes ∧
     (Stats.Merge s o).1.CacheHits = s.CacheHits + o.CacheHits ∧
     (Stats.Merge s o).1.CacheMisses = s.CacheMisses + o.CacheMisses) ∧
    (Stats.Merge s o).1.ReclaimSzIndex = s.ReclaimSzIndex ∧
    (Stats.Merge s o).1.FlushDataSz = s.FlushDataSz ∧
    (Stats.Merge s o).2 =
      { o with ReclaimSzIndex := o.ReclaimSzIndex + o.ReclaimSzIndex } ∧
    (mergeAll acc l).ReclaimSzIndex = acc.ReclaimSzIndex ∧
    (mergeAll acc l).FlushDataSz = acc.FlushDataSz := by
  refine ⟨⟨rfl, rfl, rfl, rfl, rfl, rfl, rfl, rfl, rfl, rfl, rfl, rfl, rfl,
    rfl, rfl, rfl, rfl, rfl, rfl, rfl, rfl, rfl, rfl, rfl, rfl⟩, rfl, rfl,
    rfl, ?_, ?_⟩
  · induction l generalizing acc with
    | nil => rfl
    | cons st rest ih => exact ih (Stats.Merge acc st).1
  · induction l generalizing acc with
    | nil => rfl
    | cons st rest ih => exact ih (Stats.Merge acc st).1

/-- Configuration thresholds read by `trySMOs` (plasma.go, `s.Config`). -/
structure SMOConfig where
  MaxDeltaChainLen : Nat
  MaxPageItems : Nat
  MinPageItems : Nat
  shouldPersist : Bool
deriving DecidableEq

/-- The page state `trySMOs` inspects, together with the oracles it
consults.  The page implementation (page.go) is not among the source
files, so the page-side quantities are modelled from the spec, section
4.3: the delta-chain length and item count drive the
`NeedCompaction`/`NeedSplit`/`NeedMerge` predicates; `Compact()` returns
the stale flush-data size of the chain it absorbs (`compactStaleFdSz`);
`Split(pid)` returns nil exactly when splitting is not profitable
(`splitOk = false`); `Marshal` returns the encoded size, and the stale
size, of the marshalled chain (`fdSz`, `splitFdSz`,
`marshalStaleFdSz`). -/
structure SMOPage where
  chainLen : Nat
  numItems : Nat
  splitOk : Bool
  compactStaleFdSz : Int
  fdSz : Int
  splitFdSz : Int
  marshalStaleFdSz : Int
deriving DecidableEq

/-- Modelled from the spec: `NeedCompaction` holds when the delta-chain
length has reached `MaxDeltaChainLen` ("If chain length ≥
MaxDeltaChainLen → Compact"). -/
def NeedCompaction (pg : SMOPage) (maxDeltaChainLen : Nat) : Bool :=
  decide (maxDeltaChainLen ≤ pg.chainLen)

/-- Modelled from the spec: `NeedSplit` holds when the item count has
reached `MaxPageItems` ("Else if items ≥ MaxPageItems → Split"). -/
def NeedSplit (pg : SMOPage) (maxPageItems : Nat) : Bool :=
  decide (maxPageItems ≤ pg.numItems)

/-- Modelled from the spec: `NeedMerge` holds when the item count is at
or below `MinPageItems` ("items ≤ MinPageItems → Merge/Remove"). -/
def NeedMerge (pg : SMOPage) (minPageItems : Nat) : Bool :=
  decide (pg.numItems ≤ minPageItems)

/-- Which structural branch of `trySMOs` ran. -/
inductive SMOBranch where
  | compact
  | split
  | skipSplitCompact
  | merge
  | publishOnly
  | noSMO
deriving DecidableEq

/-- Everything observable about one `trySMOs` call: the branch taken,
the returned `updated` flag, the new stats, how many log slots were
reserved and how many were discarded (overwritten with `lssDiscard`),
whether a fresh page id was allocated and whether it was freed again,
whether the split page was indexed, whether `CreateMapping` ran for it,
how many `UpdateMapping` attempts were made on the written page, and
whether `tryPageRemoval` was driven. -/
structure SMOOutcome where
  branch : SMOBranch
  updated : Bool
  sts : Stats
  lssReserved : Nat
  lssDiscarded : Nat
  pidAllocated : Bool
  pidFreed : Bool
  splitIndexed : Bool
  mappingCreated : Bool
  publishAttempts : Nat
  removalDriven : Bool
deriving DecidableEq

/-- `trySMOs` (plasma.go lines 850-936), with `casOk` the oracle for
the success of this write's `UpdateMapping` compare-and-swap. -/
def trySMOs (cfg : SMOConfig) (isStartPage : Bool) (pg : SMOPage)
    (sts : Stats) (doUpdate casOk : Bool) : SMOOutcome :=
  if NeedCompaction pg cfg.MaxDeltaChainLen then
    if casOk then
      { branch := .compact, updated := true,
        sts := { sts with
          Compacts := sts.Compacts + 1
          FlushDataSz := sts.FlushDataSz - pg.compactStaleFdSz },
        lssReserved := 0, lssDiscarded := 0, pidAllocated := false,
        pidFreed := false, splitIndexed := false, mappingCreated := false,
        publishAttempts := 1, removalDriven := false }
    else
      { branch := .compact, updated := false,
        sts := { sts with CompactConflicts := sts.CompactConflicts + 1 },
        lssReserved := 0, lssDiscarded := 0, pidAllocated := false,
        pidFreed := false, splitIndexed := false, mappingCreated := false,
        publishAttempts := 1, removalDriven := false }
  else if NeedSplit pg cfg.MaxPageItems then
    if !pg.splitOk then
      -- Skip split, but compact (the `newPg == nil` path)
      { branch := .skipSplitCompact, updated := casOk,
        sts := if casOk then
            { sts with FlushDataSz := sts.FlushDataSz - pg.compactStaleFdSz }
          else sts,
        lssReserved := 0, lssDiscarded := 0, pidAllocated := true,
        pidFreed := true, splitIndexed := false, mappingCreated := false,
        publishAttempts := 1, removalDriven := false }
    else if casOk then
      { branch := .split, updated := true,
        sts := { sts with
          Splits := sts.Splits + 1
          FlushDataSz := if cfg.shouldPersist then
              sts.FlushDataSz + pg.fdSz + pg.splitFdSz - pg.marshalStaleFdSz
            else sts.FlushDataSz },
        lssReserved := if cfg.shouldPersist then 2 else 0, lssDiscarded := 0,
        pidAllocated := true, pidFreed := false, splitIndexed := true,
        mappingCreated := true, publishAttempts := 1, removalDriven := false }
    else
      { branch := .split, updated := false,
        sts := { sts with SplitConflicts := sts.SplitConflicts + 1 },
        lssReserved := if cfg.shouldPersist then 2 else 0,
        lssDiscarded := if cfg.shouldPersist then 2 else 0,
        pidAllocated := true, pidFreed := true, splitIndexed := false,
        mappingCreated := true, publishAttempts := 1, removalDriven := false }
  else if !isStartPage && NeedMerge pg cfg.MinPageItems then
    if casOk then
      { branch := .merge, updated := true,
        sts := { sts with Merges := sts.Merges + 1 },
        lssReserved := 0, lssDiscarded := 0, pidAllocated := false,
        pidFreed := false, splitIndexed := false, mappingCreated := false,
        publishAttempts := 1, removalDriven := true }
    else
      { branch := .merge, updated := false,
        sts := { sts with MergeConflicts := sts.MergeConflicts + 1 },
        lssReserved := 0, lssDiscarded := 0, pidAllocated := false,
        pidFreed := false, splitIndexed := false, mappingCreated := false,
        publishAttempts := 1, removalDriven := false }
  else if doUpdate then
    { branch := .publishOnly, updated := casOk, sts := sts,
      lssReserved := 0, lssDiscarded := 0, pidAllocated := false,
      pidFreed := false, splitIndexed := false, mappingCreated := false,
      publishAttempts := 1, removalDriven := false }
  else
    { branch := .noSMO, updated := false, sts := sts,
      lssReserved := 0, lssDiscarded := 0, pidAllocated := false,
      pidFreed := false, splitIndexed := false, mappingCreated := false,
      publishAttempts := 0, removalDriven := false }

/-- Claim C3: at most one structural branch of `trySMOs` runs, chosen in
strict priority order.  If the chain length reaches `MaxDeltaChainLen`
the page is compacted, with `Compacts` incremented on a successful
publish and `CompactConflicts` on a CAS failure; otherwise if the item
count reaches `MaxPageItems` a split is attempted; otherwise if the page
is not the start page and the item count is at or below `MinPageItems` a
merge/removal is attempted; otherwise the new head is published via
`UpdateMapping` if and only if `doUpdate` is true — in particular a
start page is never merged, and a `Lookup` caller passing
`doUpdate = false` publishes nothing and changes nothing when no SMO
threshold is met. -/
theorem claim_C3_trySMOs_priority (cfg : SMOConfig) (isStart : Bool)
    (pg : SMOPage) (sts : Stats) (doUpdate casOk : Bool) :
    (NeedCompaction pg cfg.MaxDeltaChainLen = true →
      (trySMOs cfg isStart pg sts doUpdate casOk).branch = SMOBranch.compact ∧
      (trySMOs cfg isStart pg sts doUpdate casOk).publishAttempts = 1 ∧
      (casOk = true →
        (trySMOs cfg isStart pg sts doUpdate casOk).sts.Compacts =
          sts.Compacts + 1 ∧
        (trySMOs cfg isStart pg sts doUpdate casOk).sts.CompactConflicts =
          sts.CompactConflicts) ∧
      (casOk = false →
        (trySMOs cfg isStart pg sts doUpdate casOk).sts.CompactConflicts =
          sts.CompactConflicts + 1 ∧
        (trySMOs cfg isStart pg sts doUpdate casOk).sts.Compacts =
          sts.Compacts)) ∧
    (NeedCompaction pg cfg.MaxDeltaChainLen = false →
      NeedSplit pg cfg.MaxPageItems = true →
      ((trySMOs cfg isStart pg sts doUpdate casOk).branch = SMOBranch.split ∨
       (trySMOs cfg isStart pg sts doUpdate casOk).branch =
         SMOBranch.skipSplitCompact)) ∧
    (NeedCompaction pg cfg.MaxDeltaChainLen = false →
      NeedSplit pg cfg.MaxPageItems = false → isStart = false →
      NeedMerge pg cfg.MinPageItems = true →
      (trySMOs cfg isStart pg sts doUpdate casOk).branch = SMOBranch.merge) ∧
    (NeedCompaction pg cfg.MaxDeltaChainLen = false →
      NeedSplit pg cfg.MaxPageItems = false →
      (isStart = true ∨ NeedMerge pg cfg.MinPageItems = false) →
      (trySMOs cfg isStart pg sts doUpdate casOk).sts = sts ∧
      (trySMOs cfg isStart pg sts doUpdate casOk).lssReserved = 0 ∧
      (doUpdate = true →
        (trySMOs cfg isStart pg sts doUpdate casOk).branch =
          SMOBranch.publishOnly ∧
        (trySMOs cfg isStart pg sts doUpdate casOk).publishAttempts = 1 ∧
        (trySMOs cfg isStart pg sts doUpdate casOk).updated = casOk) ∧
      (doUpdate = false →
        (trySMOs cfg isStart pg sts doUpdate casOk).branch = SMOBranch.noSMO ∧
        (trySMOs cfg isStart pg sts doUpdate casOk).publishAttempts = 0 ∧
        (trySMOs cfg isStart pg sts doUpdate casOk).updated = false)) ∧
    (isStart = true →
      (trySMOs cfg isStart pg sts doUpdate casOk).branch ≠ SMOBranch.merge) := by
  refine ⟨?_, ?_, ?_, ?_, ?_⟩
  · intro hc
    cases casOk <;> simp [trySMOs, hc]
  · intro hc hs
    cases hp : pg.splitOk <;> cases casOk <;> simp [trySMOs, hc, hs, hp]
  · intro hc hs hst hm
    subst hst
    cases casOk <;> simp [trySMOs, hc, hs, hm]
  · intro hc hs hor
    have hcond : (!isStart && NeedMerge pg cfg.MinPageItems) = false := by
      rcases hor with hst | hm
      · simp [hst]
      · simp [hm]
    cases doUpdate <;> simp [trySMOs, hc, hs, hcond]
  · intro hst
    subst hst
    by_cases hc : NeedCompaction pg cfg.MaxDeltaChainLen <;>
      by_cases hs : NeedSplit pg cfg.MaxPageItems <;>
      cases hp : pg.splitOk <;> cases doUpdate <;> cases casOk <;>
      simp [trySMOs, hc, hs, hp]

/-- Claim C8: when `trySMOs` attempts a split and `Split(splitPid)`
returns nil (splitting not profitable), the freshly allocated split
page id is freed again, the page is compacted instead and the compacted
page is published via `UpdateMapping`; no split is counted, no new page
is indexed or mapped, and no log space is reserved or discarded for the
skipped split. -/
theorem claim_C8_skip_split_compacts (cfg : SMOConfig) (isStart : Bool)
    (pg : SMOPage) (sts : Stats) (doUpdate casOk : Bool)
    (hc : NeedCompaction pg cfg.MaxDeltaChainLen = false)
    (hs : NeedSplit pg cfg.MaxPageItems = true)
    (hp : pg.splitOk = false) :
    (trySMOs cfg isStart pg sts doUpdate casOk).branch =
      SMOBranch.skipSplitCompact ∧
    (trySMOs cfg isStart pg sts doUpdate casOk).pidAllocated = true ∧
    (trySMOs cfg isStart pg sts doUpdate casOk).pidFreed = true ∧
    (trySMOs cfg isStart pg sts doUpdate casOk).lssReserved = 0 ∧
    (trySMOs cfg isStart pg sts doUpdate casOk).lssDiscarded = 0 ∧
    (trySMOs cfg isStart pg sts doUpdate casOk).splitIndexed = false ∧
    (trySMOs cfg isStart pg sts doUpdate casOk).mappingCreated = false ∧
    (trySMOs cfg isStart pg sts doUpdate casOk).publishAttempts = 1 ∧
    (trySMOs cfg isStart pg sts doUpdate casOk).updated = casOk ∧
    (trySMOs cfg isStart pg sts doUpdate casOk).sts.Splits = sts.Splits ∧
    (trySMOs cfg isStart pg sts doUpdate casOk).sts.SplitConflicts =
      sts.SplitConflicts ∧
    (trySMOs cfg isStart pg sts doUpdate casOk).sts.Compacts = sts.Compacts ∧
    (casOk = true →
      (trySMOs cfg isStart pg sts doUpdate casOk).sts =
        { sts with FlushDataSz := sts.FlushDataSz - pg.compactStaleFdSz }) ∧
    (casOk = false →
      (trySMOs cfg isStart pg sts doUpdate casOk).sts = sts) := by
  cases casOk <;> simp [trySMOs, hc, hs, hp]

/-- A `Stats` record with every counter zero, as `GetStats` starts from
(`var sts Stats`). -/
def zeroStats : Stats :=
  ⟨0, 0, 0, 0, 0, 0, 0, 0, 0, 0, 0, 0, 0, 0, 0, 0, 0, 0, 0, 0,
   0, 0, 0, 0, 0, 0, 0, 0, 0, 0, 0, 0, 0, 0, 0, 0, 0, 0, 0, 0⟩

theorem claim_C3_witness :
    (trySMOs ⟨2, 10, 1, true⟩ false ⟨3, 5, true, 7, 0, 0, 0⟩ zeroStats
      true true).sts.Compacts = 1 ∧
    (trySMOs ⟨2, 10, 1, true⟩ false ⟨0, 5, true, 0, 0, 0, 0⟩ zeroStats
      false true).publishAttempts = 0 := by
  have h1 := ((claim_C3_trySMOs_priority ⟨2, 10, 1, true⟩ false
    ⟨3, 5, true, 7, 0, 0, 0⟩ zeroStats true true).1 (by decide)).2.2.1 rfl
  have h2 := ((claim_C3_trySMOs_priority ⟨2, 10, 1, true⟩ false
    ⟨0, 5, true, 0, 0, 0, 0⟩ zeroStats false true).2.2.2.1 (by decide)
    (by decide) (Or.inr (by decide))).2.2.2 rfl
  refine ⟨?_, h2.2.1⟩
  rw [h1.1]
  decide

theorem claim_C8_witness :
    (trySMOs ⟨2, 10, 1, true⟩ false ⟨0, 10, false, 4, 0, 0, 0⟩ zeroStats
      true true).branch = SMOBranch.skipSplitCompact ∧
    (trySMOs ⟨2, 10, 1, true⟩ false ⟨0, 10, false, 4, 0, 0, 0⟩ zeroStats
      true true).lssReserved = 0 := by
  have h := claim_C8_skip_split_compacts ⟨2, 10, 1, true⟩ false
    ⟨0, 10, false, 4, 0, 0, 0⟩ zeroStats true true
    (by decide) (by decide) (by decide)
  exact ⟨h.1, h.2.2.2.1⟩

/-- The shared state `tryPageRemoval` could touch: the ordered index
(mapping table keyed by page low bound), the length of the log, and the
stats counters. -/
structure RemovalEnv where
  index : List (Nat × Nat)
  logLen : Nat
  sts : Stats
deriving DecidableEq

/-- `skiplist.Lookup(itm)` as the guard of `tryPageRemoval` consumes it:
`found` is an exact-key hit and `curr` the matching node, which is the
page id.  The embedding returns `some curr` exactly when found. -/
def slLookup (index : List (Nat × Nat)) (itm : Nat) : Option Nat :=
  (index.find? (fun e => e.1 == itm)).map (fun e => e.2)

/-- The early-return guard of `tryPageRemoval` (plasma.go lines
766-780).  The source looks up the page's min item and returns at once
when `!found || PageId(curr) != pid`; the claim concerns only this
guard, so the removal path taken when the page is still mapped is kept
abstract as `body`. -/
def tryPageRemoval (body : RemovalEnv → RemovalEnv) (env : RemovalEnv)
    (pid : Nat) (pgLow : Nat) : RemovalEnv :=
  match slLookup env.index pgLow with
  | none => env
  | some curr => if curr ≠ pid then env else body env

/-- Claim C9: for every page id that is no longer present in the
mapping table — the lookup of its low key either finds nothing or finds
a node other than `pid` — `tryPageRemoval` returns immediately without
modifying the index, the log or the stats: removing an already-removed
page is a no-op, whatever the removal body would have done. -/
theorem claim_C9_removal_noop (body : RemovalEnv → RemovalEnv)
    (env : RemovalEnv) (pid pgLow : Nat)
    (h : slLookup env.index pgLow ≠ some pid) :
    tryPageRemoval body env pid pgLow = env := by
  unfold tryPageRemoval
  cases hs : slLookup env.index pgLow with
  | none => rfl
  | some curr =>
    show (if curr ≠ pid then env else body env) = env
    rw [if_pos]
    intro hcp
    exact h (by rw [hs, hcp])

theorem claim_C9_witness :
    tryPageRemoval (fun _ => ⟨[], 0, zeroStats⟩) ⟨[(5, 77)], 3, zeroStats⟩
      99 5 = ⟨[(5, 77)], 3, zeroStats⟩ :=
  claim_C9_removal_noop (fun _ => ⟨[], 0, zeroStats⟩) ⟨[(5, 77)], 3, zeroStats⟩
    99 5 (by decide)

/-- A flush-record delta on a page head: log offset, size of the
flushed data, and the segment count (`AddFlushRecord` in the spec). -/
structure FlushRec where
  offset : Nat
  size : Nat
  segments : Nat
deriving DecidableEq

/-- Modelled from the spec (the page implementation is not among the
source files): a recovered page carries its `low` key, the delta
payloads of its chain (newest first; each recovery block contributes
one unmarshalled payload), and its flush records (newest first). -/
structure RecPage where
  low : Nat
  deltas : List Nat
  flushRecs : List FlushRec
deriving DecidableEq

/-- Modelled from the spec: the segment count on the page head is the
one carried by the newest flush record, as set by `AddFlushRecord` and
read back by `GetFlushInfo`. -/
def RecPage.numSegments (p : RecPage) : Nat :=
  match p.flushRecs with
  | [] => 0
  | r :: _ => r.segments

/-- Modelled from the spec: `GetFlushDataSize` totals the flush-record
sizes of the chain. -/
def RecPage.flushDataSize (p : RecPage) : Int :=
  p.flushRecs.foldl (fun a r => a + (r.size : Int)) 0

/-- The log blocks the recovery scan dispatches on (`doRecovery` in
plasma.go).  For the page blocks, `payload` stands for the unmarshalled
body and `len` for its byte length (`len(bs)` after the type tag). -/
inductive LSSBlock where
  | discard
  | maxSn (sn : Nat)
  | recoveryPoints (version : Nat)
  | pageRemove (low : Nat)
  | pageData (low payload len : Nat)
  | pageReloc (low payload len : Nat)
  | pageUpdate (low payload len : Nat)
deriving DecidableEq

/-- Recovery state: the ordered index from low key to page id
(`getPageId` / `indexPage` / `unindexPage`), the mapping from page id
to page (`CreateMapping` / `UpdateMapping` / `ReadPage`), the next
fresh page id (`AllocPageId`), the running `FlushDataSz` stat, the
current snapshot number and the recovery-point version. -/
structure RecoveryState where
  index : List (Nat × Nat)
  pages : List (Nat × RecPage)
  nextPid : Nat
  flushDataSz : Int
  currSn : Nat
  rpVersion : Nat
deriving DecidableEq

/-- `s.getPageId(low)`: the index lookup by low key. -/
def getPageId (st : RecoveryState) (low : Nat) : Option Nat :=
  (st.index.find? (fun e => e.1 == low)).map (fun e => e.2)

/-- `s.ReadPage(pid)` during recovery: the page currently mapped at
`pid`. -/
def readPage (st : RecoveryState) (pid : Nat) : Option RecPage :=
  (st.pages.find? (fun e => e.1 == pid)).map (fun e => e.2)

/-- `UpdateMapping(pid, pg)` during recovery (the sequential CAS always
succeeds): replace the page stored at `pid`. -/
def setPage (pages : List (Nat × RecPage)) (pid : Nat) (pg : RecPage) :
    List (Nat × RecPage) :=
  pages.map (fun e => if e.1 == pid then (pid, pg) else e)

/-- The common `lssPageData / lssPageReloc / lssPageUpdate` case of
`doRecovery` (plasma.go lines 441-476); `newPageData` is true for the
first two block types.  Unknown low and new page data: allocate a pid,
create the mapping, index the page, attach a single flush record with
segment count 1.  Unknown low and `PageUpdate`: free the scratch page,
create nothing.  Known low and new page data: drop the current page's
chain and replace it, again with a single flush record of segment
count 1.  Known low and `PageUpdate`: append the delta payload to the
existing chain and attach a flush record with `numSegments + 1`. -/
def recoveryPageData (st : RecoveryState) (offset low payload len : Nat)
    (newPageData : Bool) : RecoveryState :=
  match getPageId st low with
  | none =>
    if newPageData then
      { st with
          flushDataSz := st.flushDataSz + (len : Int)
          pages := (st.nextPid,
            { low := low, deltas := [payload],
              flushRecs := [{ offset := offset, size := len, segments := 1 }] })
            :: st.pages
          index := (low, st.nextPid) :: st.index
          nextPid := st.nextPid + 1 }
    else st
  | some pid =>
    match readPage st pid with
    | none => st
    | some currPg =>
      if newPageData then
        { st with
            flushDataSz := st.flushDataSz + (len : Int) - currPg.flushDataSize
            pages := setPage st.pages pid
              { low := low
                deltas := [payload]
                flushRecs := [{ offset := offset, size := len, segments := 1 }] } }
      else
        { st with
            flushDataSz := st.flushDataSz + (len : Int)
            pages := setPage st.pages pid
              { low := low
                deltas := payload :: currPg.deltas
                flushRecs :=
                  { offset := offset, size := len, segments := currPg.numSegments + 1 }
                    :: currPg.flushRecs } }

/-- One step of the recovery scan (`doRecovery`, plasma.go lines
413-519): dispatch on the block type of the block at `offset`. -/
def recoveryStep (st : RecoveryState) (offset : Nat) :
    LSSBlock → RecoveryState
  | .discard => st
  | .maxSn sn => { st with currSn := sn }
  | .recoveryPoints version => { st with rpVersion := version }
  | .pageRemove low =>
    match getPageId st low with
    | none => st
    | some pid =>
      match readPage st pid with
      | none => st
      | some currPg =>
        { st with
            flushDataSz := st.flushDataSz - currPg.flushDataSize
            pages := st.pages.filter (fun e => !(e.1 == pid))
            index := st.index.filter (fun e => !(e.1 == low)) }
  | .pageData low payload len => recoveryPageData st offset low payload len true
  | .pageReloc low payload len => recoveryPageData st offset low payload len true
  | .pageUpdate low payload len =>
    recoveryPageData st offset low payload len false

/-- The recovery scan: `lss.Visitor` replays the log blocks in append
order. -/
def recoveryRun (st : RecoveryState) :
    List (Nat × LSSBlock) → RecoveryState
  | [] => st
  | (off, blk) :: rest => recoveryRun (recoveryStep st off blk) rest

theorem find?_setPage (pages : List (Nat × RecPage)) (pid : Nat)
    (pg : RecPage)
    (h : (pages.find? (fun e => e.1 == pid)).isSome = true) :
    (setPage pages pid pg).find? (fun e => e.1 == pid) = some (pid, pg) := by
  induction pages with
  | nil => simp at h
  | cons e rest ih =>
    by_cases he : (e.1 == pid) = true
    · show ((if e.1 == pid then (pid, pg) else e) ::
        rest.map (fun e => if e.1 == pid then (pid, pg) else e)).find? _ = _
      rw [he]
      simp
    · show ((if e.1 == pid then (pid, pg) else e) ::
        rest.map (fun e => if e.1 == pid then (pid, pg) else e)).find? _ = _
      rw [Bool.not_eq_true] at he
      rw [he]
      simp only [if_false, Bool.false_eq_true]
      rw [List.find?_cons_of_neg _ (by simp [he])]
      apply ih
      rw [List.find?_cons_of_neg _ (by simp [he])] at h
      exact h

theorem readPage_after_set (st : RecoveryState) (pid : Nat)
    (pg currPg : RecPage) (h : readPage st pid = some currPg) :
    ((setPage st.pages pid pg).find? (fun e => e.1 == pid)).map
      (fun e => e.2) = some pg := by
  unfold readPage at h
  obtain ⟨e, hfind, _⟩ := Option.map_eq_some'.mp h
  rw [find?_setPage st.pages pid pg (by rw [hfind]; rfl)]
  rfl

/-- Claim C1: the per-block semantics of the recovery scan.  A
`Discard` block changes no state.  A `PageData` or `PageReloc` block
(the two are treated identically) whose low key has no page id in the
mapping allocates the next fresh pid, creates the mapping for it,
indexes the page, and attaches exactly one flush record at the block's
offset with segment count 1; when the low key is known, the existing
page's chain is dropped and replaced by the block's payload, again with
a single flush record of segment count 1.  A `PageUpdate` block for a
known low appends the delta payload to the existing page's chain and
attaches a flush record whose segment count is the page's previous
`numSegments` plus 1; a `PageUpdate` for an unknown low creates no
page and changes nothing. -/
theorem claim_C1_recovery_block_semantics (st : RecoveryState)
    (offset low payload len : Nat) :
    (recoveryStep st offset LSSBlock.discard = st) ∧
    (recoveryStep st offset (LSSBlock.pageReloc low payload len) =
      recoveryStep st offset (LSSBlock.pageData low payload len)) ∧
    (getPageId st low = none →
      recoveryStep st offset (LSSBlock.pageData low payload len) =
        { st with
            flushDataSz := st.flushDataSz + (len : Int)
            pages := (st.nextPid,
              ⟨low, [payload], [⟨offset, len, 1⟩]⟩) :: st.pages
            index := (low, st.nextPid) :: st.index
            nextPid := st.nextPid + 1 } ∧
      readPage (recoveryStep st offset (LSSBlock.pageData low payload len))
        st.nextPid = some ⟨low, [payload], [⟨offset, len, 1⟩]⟩) ∧
    (∀ pid currPg, getPageId st low = some pid →
      readPage st pid = some currPg →
      (recoveryStep st offset (LSSBlock.pageData low payload len)).index =
        st.index ∧
      (recoveryStep st offset (LSSBlock.pageData low payload len)).nextPid =
        st.nextPid ∧
      readPage (recoveryStep st offset (LSSBlock.pageData low payload len))
        pid = some ⟨low, [payload], [⟨offset, len, 1⟩]⟩) ∧
    (∀ pid currPg, getPageId st low = some pid →
      readPage st pid = some currPg →
      (recoveryStep st offset (LSSBlock.pageUpdate low payload len)).index =
        st.index ∧
      (recoveryStep st offset (LSSBlock.pageUpdate low payload len)).nextPid =
        st.nextPid ∧
      readPage (recoveryStep st offset (LSSBlock.pageUpdate low payload len))
        pid = some ⟨low, payload :: currPg.deltas,
          ⟨offset, len, currPg.numSegments + 1⟩ :: currPg.flushRecs⟩) ∧
    (getPageId st low = none →
      recoveryStep st offset (LSSBlock.pageUpdate low payload len) = st) := by
  refine ⟨rfl, rfl, ?_, ?_, ?_, ?_⟩
  · intro h
    have h1 : recoveryStep st offset (LSSBlock.pageData low payload len) =
        { st with
            flushDataSz := st.flushDataSz + (len : Int)
            pages := (st.nextPid,
              (⟨low, [payload], [⟨offset, len, 1⟩]⟩ : RecPage)) :: st.pages
            index := (low, st.nextPid) :: st.index
            nextPid := st.nextPid + 1 } := by
      show recoveryPageData st offset low payload len true = _
      simp [recoveryPageData, h]
    refine ⟨h1, ?_⟩
    rw [h1]
    unfold readPage
    show ((((st.nextPid, (⟨low, [payload], [⟨offset, len, 1⟩]⟩ : RecPage))
      :: st.pages).find? (fun e => e.1 == st.nextPid)).map (fun e => e.2)) = _
    rw [List.find?_cons_of_pos _ (by simp)]
    rfl
  · intro pid currPg hpid hread
    have h1 : recoveryStep st offset (LSSBlock.pageData low payload len) =
        { st with
            flushDataSz := st.flushDataSz + (len : Int) - currPg.flushDataSize
            pages := setPage st.pages pid ⟨low, [payload], [⟨offset, len, 1⟩]⟩ } := by
      show recoveryPageData st offset low payload len true = _
      simp [recoveryPageData, hpid, hread]
    rw [h1]
    refine ⟨rfl, rfl, ?_⟩
    unfold readPage
    exact readPage_after_set st pid _ currPg hread
  · intro pid currPg hpid hread
    have h1 : recoveryStep st offset (LSSBlock.pageUpdate low payload len) =
        { st with
            flushDataSz := st.flushDataSz + (len : Int)
            pages := setPage st.pages pid ⟨low, payload :: currPg.deltas,
              ⟨offset, len, currPg.numSegments + 1⟩ :: currPg.flushRecs⟩ } := by
      show recoveryPageData st offset low payload len false = _
      simp [recoveryPageData, hpid, hread]
    rw [h1]
    refine ⟨rfl, rfl, ?_⟩
    unfold readPage
    exact readPage_after_set st pid _ currPg hread
  · intro h
    show recoveryPageData st offset low payload len false = st
    simp [recoveryPageData, h]

theorem claim_C1_witness :
    readPage (recoveryStep
      ⟨[(5, 0)], [(0, ⟨5, [111], [⟨0, 4, 1⟩]⟩)], 1, 4, 0, 0⟩
      40 (LSSBlock.pageUpdate 5 222 9)) 0 =
      some ⟨5, [222, 111], [⟨40, 9, 2⟩, ⟨0, 4, 1⟩]⟩ := by
  have h := (claim_C1_recovery_block_semantics
    ⟨[(5, 0)], [(0, ⟨5, [111], [⟨0, 4, 1⟩]⟩)], 1, 4, 0, 0⟩ 40 5 222 9).2.2.2.2.1
    0 ⟨5, [111], [⟨0, 4, 1⟩]⟩ (by decide) (by decide)
  exact h.2.2

/-- Claim C10 counterexample: `FlushDataSz` is also a per-context
counter — it is accumulated on `ctx.sts.FlushDataSz` throughout
plasma.go and summed per write context by `LSSDataSize` — yet
`Stats.Merge` does not add it into the receiver: merging an argument
whose `FlushDataSz` is 7 into a zero receiver leaves the receiver's
`FlushDataSz` at 0 rather than 7.  So "adds each per-context counter
of the argument into the receiver, with one exception
(`ReclaimSzIndex`)" is false: `FlushDataSz` is a second exception. -/
theorem claim_C10_counterexample :
    (Stats.Merge zeroStats { zeroStats with FlushDataSz := 7 }).1.FlushDataSz ≠
      zeroStats.FlushDataSz +
        ({ zeroStats with FlushDataSz := 7 } : Stats).FlushDataSz := by
  decide
